import Mathlib

/-!
Verification development for the field-currents-heating solver
(`source/physical_quantities.cc`, `source/currents_and_heating.cc`,
`include/currents_and_heating.h`).

Real numbers (C++ `double`) are modelled as rationals, so every arithmetic
step of the source is mirrored exactly.  External deal.II services (finite
element shape evaluation, Dirichlet elimination, the conjugate-gradient
solver, mesh/dof bookkeeping) are modelled from the specification and
marked as such in their doc comments; everything else is translated
directly from the source files.
-/

set_option maxHeartbeats 1000000

namespace Fch

/-! ## Small vector helpers (stand-ins for deal.II tensor operations) -/

/-- Dot product of two coefficient lists (deal.II `Tensor` contraction). -/
def dotQ (a b : List ℚ) : ℚ := (List.zipWith (fun x y => x * y) a b).sum

/-- Squared norm of a vector, `Tensor::norm_square`. -/
def normSquare (v : List ℚ) : ℚ := dotQ v v

/-- Scale a vector by a constant. -/
def vscale (c : ℚ) (v : List ℚ) : List ℚ := v.map (fun x => c * x)

/-- Componentwise sum of two vectors. -/
def vaddQ (a b : List ℚ) : List ℚ := List.zipWith (fun x y => x + y) a b

/-- Componentwise difference of two vectors. -/
def vsubQ (a b : List ℚ) : List ℚ := List.zipWith (fun x y => x - y) a b

/-- The l1 norm of a vector; used by the modelled linear solver as its
residual-size measure. -/
def l1norm (v : List ℚ) : ℚ := (v.map (fun x => |x|)).sum

/-! ## PhysicalQuantities: the tabulated-property interpolation engine
(`source/physical_quantities.cc`) -/

/-- One run of the `std::lower_bound` half-interval search used by
`linear_interp` and `deriv_linear_interp` (lines 186 and 254 of
`physical_quantities.cc`): `first` and `len` delimit the unsearched range,
exactly as in the libstdc++ implementation of `std::lower_bound`; out of
range reads return the default pair, which the invariants of the callers
rule out.  The extra fuel argument (always instantiated with the list
length, an upper bound for `len`) makes the recursion structural. -/
def lbGo (data : List (ℚ × ℚ)) (x : ℚ) : ℕ → ℕ → ℕ → ℕ
  | 0, first, _ => first
  | fuel + 1, first, len =>
    if len = 0 then first
    else
      let half := len / 2
      let mid := first + half
      if (data.getD mid (0, 0)).1 < x then lbGo data x fuel (mid + 1) (len - half - 1)
      else lbGo data x fuel first half

/-- Source: `std::lower_bound(data.begin(), data.end(), make_pair(x, 0.0), pair_comp)`
as an index into `data`: first position whose abscissa is not below `x`. -/
def lowerBound (data : List (ℚ × ℚ)) (x : ℚ) : ℕ := lbGo data x data.length 0 data.length

/-- Source: `PhysicalQuantities::linear_interp` (lines 177-189): constant
extrapolation outside the table, binary search plus linear interpolation
inside. -/
def linear_interp (x : ℚ) (data : List (ℚ × ℚ)) : ℚ :=
  let d0 := data.getD 0 (0, 0)
  let dLast := data.getD (data.length - 1) (0, 0)
  if x ≤ d0.1 then d0.2
  else if dLast.1 ≤ x then dLast.2
  else
    let i1 := lowerBound data x
    let p1 := data.getD i1 (0, 0)
    let p2 := data.getD (i1 - 1) (0, 0)
    p2.2 + (p1.2 - p2.2) * (x - p2.1) / (p1.1 - p2.1)

/-- Source: `PhysicalQuantities::evaluate_derivative` (lines 191-199), with the
iterator replaced by its index: one-sided difference quotients at the two
table ends, central difference in the interior. -/
def evaluate_derivative (data : List (ℚ × ℚ)) (i : ℕ) : ℚ :=
  if i = 0 then
    ((data.getD 1 (0, 0)).2 - (data.getD 0 (0, 0)).2)
      / ((data.getD 1 (0, 0)).1 - (data.getD 0 (0, 0)).1)
  else if i = data.length - 1 then
    ((data.getD i (0, 0)).2 - (data.getD (i - 1) (0, 0)).2)
      / ((data.getD i (0, 0)).1 - (data.getD (i - 1) (0, 0)).1)
  else
    ((data.getD (i + 1) (0, 0)).2 - (data.getD (i - 1) (0, 0)).2)
      / ((data.getD (i + 1) (0, 0)).1 - (data.getD (i - 1) (0, 0)).1)

/-- The input clamping performed at the start of
`PhysicalQuantities::deriv_linear_interp` (lines 246-250): a value at or
below the first abscissa is nudged up by `eps = 1e-10`; afterwards a value
at or above the last abscissa is replaced by the last abscissa itself. -/
def deriv_clamp (x : ℚ) (data : List (ℚ × ℚ)) : ℚ :=
  let eps : ℚ := 1 / 10 ^ 10
  let x1 := if x ≤ (data.getD 0 (0, 0)).1 then (data.getD 0 (0, 0)).1 + eps else x
  if (data.getD (data.length - 1) (0, 0)).1 ≤ x1 then (data.getD (data.length - 1) (0, 0)).1
  else x1

/-- Source: `PhysicalQuantities::deriv_linear_interp` (lines 244-261): clamp the
input, locate the bracket with the same binary search as `linear_interp`,
estimate the derivative at both bracket ends and blend linearly. -/
def deriv_linear_interp (x : ℚ) (data : List (ℚ × ℚ)) : ℚ :=
  let xc := deriv_clamp x data
  let i := lowerBound data xc
  let ip := i - 1
  let dit := evaluate_derivative data i
  let ditp := evaluate_derivative data ip
  ditp + (dit - ditp) * (xc - (data.getD ip (0, 0)).1)
    / ((data.getD i (0, 0)).1 - (data.getD ip (0, 0)).1)

/-- Source: `PhysicalQuantities::InterpolationGrid`: a uniform 2D grid with
flattened values (row-major over x). -/
structure InterpolationGrid where
  v : List ℚ
  xmin : ℚ
  xmax : ℚ
  ymin : ℚ
  ymax : ℚ
  xnum : ℕ
  ynum : ℕ

/-- Source: `PhysicalQuantities::bilinear_interp` (lines 264-299): clamp both
coordinates (upper bounds nudged down by `eps = 1e-10`), locate the grid
cell on the assumed-uniform grid, blend the four corner values.  The C++
`int(...)` cast truncates; the clamped operands are nonnegative, so
truncation coincides with the floor used here. -/
def bilinear_interp (x y : ℚ) (grid_data : InterpolationGrid) : ℚ :=
  let eps : ℚ := 1 / 10 ^ 10
  let x := if x ≤ grid_data.xmin then grid_data.xmin else x
  let x := if grid_data.xmax ≤ x then grid_data.xmax - eps else x
  let y := if y ≤ grid_data.ymin then grid_data.ymin else y
  let y := if grid_data.ymax ≤ y then grid_data.ymax - eps else y
  let dx := (grid_data.xmax - grid_data.xmin) / (grid_data.xnum - 1 : ℕ)
  let dy := (grid_data.ymax - grid_data.ymin) / (grid_data.ynum - 1 : ℕ)
  let xi := ((x - grid_data.xmin) / dx).floor.toNat
  let yi := ((y - grid_data.ymin) / dy).floor.toNat
  let xc := (x - grid_data.xmin) / dx - xi
  let yc := (y - grid_data.ymin) / dy - yi
  let yn := grid_data.ynum
  grid_data.v.getD (xi * yn + yi) 0 * (1 - xc) * (1 - yc)
    + grid_data.v.getD ((xi + 1) * yn + yi) 0 * xc * (1 - yc)
    + grid_data.v.getD (xi * yn + yi + 1) 0 * (1 - xc) * yc
    + grid_data.v.getD ((xi + 1) * yn + yi + 1) 0 * xc * yc

/-- The data of a `PhysicalQuantities` object.  The resistivity table and
the two emission grids are the loaded tabulated data; `expFn` and `logFn`
model the external math-library functions `std::exp` and `std::log`, which
have no exact rational counterpart and whose pointwise values never matter
for the claims below. -/
structure PhysicalQuantities where
  resistivity_data : List (ℚ × ℚ)
  emission_grid : InterpolationGrid
  nottingham_grid : InterpolationGrid
  expFn : ℚ → ℚ
  logFn : ℚ → ℚ

/-- Source: `PhysicalQuantities::emission_current` (lines 26-28). -/
def PhysicalQuantities.emission_current (pq : PhysicalQuantities) (field temperature : ℚ) : ℚ :=
  pq.expFn (bilinear_interp (pq.logFn field) temperature pq.emission_grid) * (1 / 10 ^ 18)

/-- Source: `PhysicalQuantities::nottingham_de` (lines 30-32). -/
def PhysicalQuantities.nottingham_de (pq : PhysicalQuantities) (field temperature : ℚ) : ℚ :=
  bilinear_interp (pq.logFn field) temperature pq.nottingham_grid

/-- Source: `PhysicalQuantities::evaluate_resistivity` (lines 34-36). -/
def PhysicalQuantities.evaluate_resistivity (pq : PhysicalQuantities) (temperature : ℚ) : ℚ :=
  linear_interp temperature pq.resistivity_data * 10 ^ 9

/-- Source: `PhysicalQuantities::sigma` (lines 42-49): clamp the temperature to
[200, 1400] by the two successive `if` statements of the source, then
invert the interpolated resistivity. -/
def PhysicalQuantities.sigma (pq : PhysicalQuantities) (temperature : ℚ) : ℚ :=
  let temperature := if temperature < 200 then 200 else temperature
  let temperature := if 1400 < temperature then 1400 else temperature
  let rho := pq.evaluate_resistivity temperature
  1 / rho

/-- The Lorentz number constant `2.443e-8` used by `kappa` and `dkappa`. -/
def lorentzNumber : ℚ := 2443 / 10 ^ 11

/-- Source: `PhysicalQuantities::kappa` (lines 60-67): clamp the temperature to
[200, 1400], then apply the Wiedemann-Franz relation. -/
def PhysicalQuantities.kappa (pq : PhysicalQuantities) (temperature : ℚ) : ℚ :=
  let temperature := if temperature < 200 then 200 else temperature
  let temperature := if 1400 < temperature then 1400 else temperature
  lorentzNumber * temperature * pq.sigma temperature

/-- The clamp of a temperature to the validity window [200, 1400], written
as the specification states it (for comparison with the source's two
sequential `if` statements). -/
def clampWindow (T : ℚ) : ℚ := max 200 (min T 1400)

/-- The predicate "the sample abscissas are strictly increasing", the
loaded-table invariant of the specification. -/
abbrev sortedX (data : List (ℚ × ℚ)) : Prop :=
  List.Pairwise (fun p q => p.1 < q.1) data

/-! ## Mesh and finite-element data (`currents_and_heating.cc`)

The mesh, dof distribution and shape-function evaluation are services of
the external deal.II library.  A cell therefore carries, as plain data,
everything the assembly loops read from deal.II: its index, the global dof
indices of the two fields, and per quadrature point the shape values,
shape gradients and JxW weights that the FEValues / FEFaceValues objects
would return.  Geometry is one-dimensional in the model (a face center is
a single rational); only distances and traversal order matter to the
claims. -/

/-- Boundary marker of the copper/vacuum interface,
`BoundaryId::copper_surface` (defined in the external mesh preparer; only
its distinctness from other markers is used). -/
def copper_surface : ℕ := 1

/-- Boundary marker of the copper base, `BoundaryId::copper_bottom`. -/
def copper_bottom : ℕ := 2

/-- Face quadrature point data: shape values of the heat and current
elements and the JxW weight (modelled from the spec: produced by the
external FEFaceValues objects). -/
structure FaceQP where
  shapeHeat : List ℚ
  shapeCur : List ℚ
  jxw : ℚ

/-- One face of a cell: boundary flag, boundary marker, center
coordinate, and face quadrature data. -/
structure Face where
  at_boundary : Bool
  bid : ℕ
  center : ℚ
  fq : List FaceQP

/-- Cell quadrature point data: heat shape values/gradients, current
shape gradients, JxW (modelled from the spec: produced by the external
FEValues objects; both fields use the same quadrature since both elements
have degree 1). -/
structure CellQP where
  shapeHeat : List ℚ
  gradHeat : List (List ℚ)
  gradCur : List (List ℚ)
  jxw : ℚ

/-- One active cell, traversed in deal.II iteration order: the two dof
handlers walk the same triangulation in lockstep, so one cell record
carries both fields' global dof indices. -/
structure Cell where
  index : ℕ
  dofsCur : List ℕ
  dofsHeat : List ℕ
  qps : List CellQP
  faces : List Face

/-- The interface maps `std::map<std::pair<unsigned, unsigned>, double>`:
modelled as insertion-ordered association lists (all claims below are
under the distinct-keys invariant, where ordering is irrelevant). -/
abbrev AssocMap : Type := List ((ℕ × ℕ) × ℚ)

/-- Find a key in a map (`std::map::find` / presence test). -/
def mapFind (m : AssocMap) (k : ℕ × ℕ) : Option ℚ := List.lookup k m

/-- Source: `std::map::count` for a key. -/
def mapCount (m : AssocMap) (k : ℕ × ℕ) : ℕ :=
  (List.filter (fun p => p.1 == k) m).length

/-- Source: `std::map::insert`: inserts only when the key is absent. -/
def mapInsert (m : AssocMap) (k : ℕ × ℕ) (v : ℚ) : AssocMap :=
  if (List.lookup k m).isSome then m else m ++ [(k, v)]

/-- Sparse-matrix contents as a list of `add` events
`((row, col), increment)`, mirroring the `SparseMatrix::add` calls of the
assembly loops. -/
abbrev Triplets : Type := List ((ℕ × ℕ) × ℚ)

/-- Matrix-vector product over the add-event list (the assembled operator
applied to a vector; the result length follows the input vector). -/
def matVec (A : Triplets) (x : List ℚ) : List ℚ :=
  A.foldl (fun acc t => acc.set t.1.1 (acc.getD t.1.1 0 + t.2 * x.getD t.1.2 0))
    (List.replicate x.length 0)

/-- Source: `ambient_temperature = 300.0` (currents_and_heating.h line 188). -/
def ambient_temperature : ℚ := 300

/-- Source: `cu_rho_cp = 3.4496e-21` (currents_and_heating.h line 190). -/
def cu_rho_cp : ℚ := 34496 / 10 ^ 25

/-- The state of a `CurrentsAndHeating` object.  `nDofsCurrent`,
`nDofsHeat` and the base-boundary dof lists stand for the results of the
external dof distribution and of deal.II
`VectorTools::interpolate_boundary_values` on the `copper_bottom`
boundary. -/
structure FchState where
  time_step : ℚ
  uniform_efield_bc : ℚ
  mesh : List Cell
  nDofsCurrent : ℕ
  nDofsHeat : ℕ
  bottomDofsCurrent : List ℕ
  bottomDofsHeat : List ℕ
  system_matrix_current : Triplets
  system_rhs_current : List ℚ
  solution_current : List ℚ
  old_solution_current : List ℚ
  system_matrix_heat : Triplets
  system_rhs_heat : List ℚ
  solution_heat : List ℚ
  old_solution_heat : List ℚ
  const_temperature_solution : List ℚ
  pq : PhysicalQuantities
  interface_map_field : AssocMap
  interface_map_emission_current : AssocMap
  interface_map_nottingham : AssocMap

/-! ## Boundary-condition setters and lookups -/

/-- Source: `CurrentsAndHeating::set_electric_field_bc(const double)` (lines
638-641): stores the uniform field scalar; nothing else is touched. -/
def set_electric_field_bc_uniform (st : FchState) (uniform_efield : ℚ) : FchState :=
  { st with uniform_efield_bc := uniform_efield }

/-- Source: `CurrentsAndHeating::get_efield_bc` (lines 726-736): a nonempty
per-face map wins; an empty map falls back to the uniform scalar.  The
`assert(count == 1)` of the source is reflected by reading the map with
default 0 (the value `operator[]` would default-insert). -/
def get_efield_bc (st : FchState) (cop_cell_info : ℕ × ℕ) : ℚ :=
  if st.interface_map_field = [] then st.uniform_efield_bc
  else (mapFind st.interface_map_field cop_cell_info).getD 0

/-- Source: `CurrentsAndHeating::get_emission_current_bc` (lines 738-750). -/
def get_emission_current_bc (st : FchState) (cop_cell_info : ℕ × ℕ) (temperature : ℚ) : ℚ :=
  if st.interface_map_emission_current = [] then
    st.pq.emission_current (get_efield_bc st cop_cell_info) temperature
  else (mapFind st.interface_map_emission_current cop_cell_info).getD 0

/-- Source: `CurrentsAndHeating::get_nottingham_heat_bc` (lines 752-765). -/
def get_nottingham_heat_bc (st : FchState) (cop_cell_info : ℕ × ℕ) (temperature : ℚ) : ℚ :=
  if st.interface_map_nottingham = [] then
    let e_field := get_efield_bc st cop_cell_info
    let emission_current := st.pq.emission_current e_field temperature
    (-1 : ℚ) * st.pq.nottingham_de e_field temperature * emission_current
  else (mapFind st.interface_map_nottingham cop_cell_info).getD 0

/-- The interface faces of a cell starting at local face number `f`, with
their `(cell index, face number)` keys and centers, in traversal order
(the shared face loop of `set_electric_field_bc`, `set_emission_bc` and
`get_surface_nodes`: every face whose marker is `copper_surface`). -/
def facesKeysFrom (cellIdx : ℕ) : ℕ → List Face → List ((ℕ × ℕ) × ℚ)
  | _, [] => []
  | f, face :: rest =>
    if face.bid = copper_surface then
      ((cellIdx, f), face.center) :: facesKeysFrom cellIdx (f + 1) rest
    else facesKeysFrom cellIdx (f + 1) rest

/-- All interface faces of the mesh with keys and centers, in the
cell-by-cell, face-by-face traversal order of the source loops. -/
def interfaceFaces (mesh : List Cell) : List ((ℕ × ℕ) × ℚ) :=
  mesh.flatMap (fun cell => facesKeysFrom cell.index 0 cell.faces)

/-- The traversal-ordered keys of the interface faces. -/
def interfaceFaceKeys (mesh : List Cell) : List (ℕ × ℕ) :=
  (interfaceFaces mesh).map Prod.fst

/-- The interface-face centers of a face list (inner loop of
`CurrentsAndHeating::get_surface_nodes`, lines 713-724). -/
def surfaceNodesFaces : List Face → List ℚ
  | [] => []
  | face :: rest =>
    if face.bid = copper_surface then face.center :: surfaceNodesFaces rest
    else surfaceNodesFaces rest

/-- Source: `CurrentsAndHeating::get_surface_nodes` (lines 713-724): the centers
of all interface faces in traversal order. -/
def get_surface_nodes (st : FchState) : List ℚ :=
  st.mesh.flatMap (fun cell => surfaceNodesFaces cell.faces)

/-- The inner face loop of
`set_electric_field_bc(const std::vector<double>&)` (lines 621-636),
threading the map under construction and the running value index `i`. -/
def setFieldFaces (elfields : List ℚ) (cellIdx : ℕ) :
    ℕ → List Face → AssocMap × ℕ → AssocMap × ℕ
  | _, [], acc => acc
  | f, face :: rest, acc =>
    if face.bid = copper_surface then
      setFieldFaces elfields cellIdx (f + 1) rest
        (mapInsert acc.1 (cellIdx, f) (elfields.getD acc.2 0), acc.2 + 1)
    else setFieldFaces elfields cellIdx (f + 1) rest acc

/-- The cell loop of `set_electric_field_bc(const std::vector<double>&)`. -/
def setFieldCells (elfields : List ℚ) : List Cell → AssocMap × ℕ → AssocMap × ℕ
  | [], acc => acc
  | cell :: rest, acc =>
    setFieldCells elfields rest (setFieldFaces elfields cell.index 0 cell.faces acc)

/-- Source: `CurrentsAndHeating::set_electric_field_bc(const std::vector<double>&)`
(lines 621-636): clear the field map, then assign the supplied values to
the interface faces in traversal order. -/
def set_electric_field_bc_vector (st : FchState) (elfields : List ℚ) : FchState :=
  { st with interface_map_field := (setFieldCells elfields st.mesh ([], 0)).1 }

/-- The inner face loop of `set_emission_bc` (lines 643-662): both maps
are filled in lockstep from one running index. -/
def setEmissionFaces (emission_currents nottingham_heats : List ℚ) (cellIdx : ℕ) :
    ℕ → List Face → AssocMap × AssocMap × ℕ → AssocMap × AssocMap × ℕ
  | _, [], acc => acc
  | f, face :: rest, acc =>
    if face.bid = copper_surface then
      setEmissionFaces emission_currents nottingham_heats cellIdx (f + 1) rest
        (mapInsert acc.1 (cellIdx, f) (emission_currents.getD acc.2.2 0),
         mapInsert acc.2.1 (cellIdx, f) (nottingham_heats.getD acc.2.2 0),
         acc.2.2 + 1)
    else setEmissionFaces emission_currents nottingham_heats cellIdx (f + 1) rest acc

/-- The cell loop of `set_emission_bc`. -/
def setEmissionCells (emission_currents nottingham_heats : List ℚ) :
    List Cell → AssocMap × AssocMap × ℕ → AssocMap × AssocMap × ℕ
  | [], acc => acc
  | cell :: rest, acc =>
    setEmissionCells emission_currents nottingham_heats rest
      (setEmissionFaces emission_currents nottingham_heats cell.index 0 cell.faces acc)

/-- Source: `CurrentsAndHeating::set_emission_bc` (lines 643-662). -/
def set_emission_bc (st : FchState) (emission_currents nottingham_heats : List ℚ) : FchState :=
  let r := setEmissionCells emission_currents nottingham_heats st.mesh ([], [], 0)
  { st with interface_map_emission_current := r.1, interface_map_nottingham := r.2.1 }

/-- Source: `CurrentsAndHeating::set_timestep` (lines 550-553). -/
def set_timestep (st : FchState) (time_step : ℚ) : FchState :=
  { st with time_step := time_step }

/-- Source: `CurrentsAndHeating::set_physical_quantities` (lines 545-548). -/
def set_physical_quantities (st : FchState) (pq : PhysicalQuantities) : FchState :=
  { st with pq := pq }

/-! ## set_electric_field_bc from a Laplace solution (lines 556-619) -/

/-- One boundary face of the vacuum mesh with the externally evaluated
field norm at its center (modelled from the spec: the norm of the
solution gradient is computed by the external Laplace solver's FE
machinery at the single face quadrature point). -/
structure VacFace where
  bid : ℕ
  center : ℚ
  efieldNorm : ℚ

/-- One active cell of the vacuum mesh. -/
structure VacCell where
  faces : List VacFace

/-- The data the `Laplace<dim>` collaborator exposes to
`set_electric_field_bc(const Laplace<dim>&)`. -/
structure Laplace where
  cells : List VacCell

/-- The vacuum-side loop of `set_electric_field_bc(const Laplace&)`
(lines 565-592) for one cell: collect `(center, field norm)` of every
interface face (the two parallel `push_back` vectors of the source are
modelled as one list of pairs). -/
def vacFacesData : List VacFace → List (ℚ × ℚ)
  | [] => []
  | face :: rest =>
    if face.bid = copper_surface then (face.center, face.efieldNorm) :: vacFacesData rest
    else vacFacesData rest

/-- All vacuum interface `(center, field norm)` pairs in traversal
order. -/
def vacuumInterfaceData (lap : Laplace) : List (ℚ × ℚ) :=
  lap.cells.flatMap (fun c => vacFacesData c.faces)

/-- The copper-side matching loop of
`set_electric_field_bc(const Laplace&)` (lines 597-618) over the faces of
one cell: the first vacuum center within `eps` wins (`break`), and a face
whose key is still absent afterwards is reported (the `std::cerr`
diagnostic is modelled as the returned key list). -/
def matchFieldFaces (vac : List (ℚ × ℚ)) (eps : ℚ) (cellIdx : ℕ) :
    ℕ → List Face → AssocMap × List (ℕ × ℕ) → AssocMap × List (ℕ × ℕ)
  | _, [], acc => acc
  | f, face :: rest, acc =>
    if face.bid = copper_surface then
      let key := (cellIdx, f)
      let m1 := match vac.find? (fun cv => decide (|face.center - cv.1| < eps)) with
        | some cv => mapInsert acc.1 key cv.2
        | none => acc.1
      let d1 := if mapCount m1 key = 0 then acc.2 ++ [key] else acc.2
      matchFieldFaces vac eps cellIdx (f + 1) rest (m1, d1)
    else matchFieldFaces vac eps cellIdx (f + 1) rest acc

/-- The copper-side cell loop of `set_electric_field_bc(const Laplace&)`. -/
def matchFieldCells (vac : List (ℚ × ℚ)) (eps : ℚ) :
    List Cell → AssocMap × List (ℕ × ℕ) → AssocMap × List (ℕ × ℕ)
  | [], acc => acc
  | cell :: rest, acc =>
    matchFieldCells vac eps rest (matchFieldFaces vac eps cell.index 0 cell.faces acc)

/-- Source: `CurrentsAndHeating::set_electric_field_bc(const Laplace<dim>&)`
(lines 556-619) with `eps = 1e-9`: rebuilds the field map from scratch by
centroid matching; the second component returns the keys of the unmatched
faces (the per-face diagnostic messages). -/
def set_electric_field_bc_laplace (st : FchState) (lap : Laplace) : FchState × List (ℕ × ℕ) :=
  let eps : ℚ := 1 / 10 ^ 9
  let md := matchFieldCells (vacuumInterfaceData lap) eps st.mesh ([], [])
  ({ st with interface_map_field := md.1 }, md.2)

/-! ## Finite-element function evaluation

Modelled from the spec: deal.II `FEValues::get_function_values` and
`get_function_gradients` evaluate a finite-element function at a
quadrature point as the shape-weighted sum of the dof values of the
supplied global vector. -/

/-- Value of the FE function with dof values `sol` (global dof indices
`dofs`) at a quadrature point with shape values `shape`. -/
def fValue (shape : List ℚ) (dofs : List ℕ) (sol : List ℚ) : ℚ :=
  dotQ shape (dofs.map (fun d => sol.getD d 0))

/-- Gradient of the FE function at a quadrature point with shape
gradients `grads`. -/
def fGradient (grads : List (List ℚ)) (dofs : List ℕ) (sol : List ℚ) : List ℚ :=
  (List.zipWith (fun g d => vscale (sol.getD d 0) g) grads dofs).foldl vaddQ []

/-- Shape value of local shape function `i` at a quadrature point. -/
def shapeAt (shape : List ℚ) (i : ℕ) : ℚ := shape.getD i 0

/-- Shape gradient of local shape function `i` at a quadrature point. -/
def gradAt (grads : List (List ℚ)) (i : ℕ) : List ℚ := grads.getD i []

/-! ## Local assembly kernels

Each kernel is the loop body of the corresponding assembly routine of
`currents_and_heating.cc`, i.e. the quantity added to the local cell
matrix / right-hand side at one quadrature point. -/

/-- Source: `assemble_current_system`, cell matrix loop body (lines 184-194):
`shape_grad(i,q) * shape_grad(j,q) * sigma * JxW(q)` with `sigma`
evaluated from the current heat solution at the quadrature point. -/
def cur_matrix_q (pq : PhysicalQuantities) (cell : Cell) (solution_heat : List ℚ)
    (qp : CellQP) (i j : ℕ) : ℚ :=
  let temperature := fValue qp.shapeHeat cell.dofsHeat solution_heat
  let sigma := pq.sigma temperature
  dotQ (gradAt qp.gradCur i) (gradAt qp.gradCur j) * sigma * qp.jxw

/-- Source: `assemble_current_system`, face rhs loop body (lines 212-221):
`shape_value(i,q) * emission_current * JxW(q)`. -/
def cur_face_q (emission_current : ℚ) (fqp : FaceQP) (i : ℕ) : ℚ :=
  shapeAt fqp.shapeCur i * emission_current * fqp.jxw

/-- Source: `assemble_heating_system_crank_nicolson`, cell matrix loop body
(lines 300-317): mass term plus `const_k * kappa` stiffness term, with
`kappa` evaluated at the previous temperature. -/
def cn_matrix_q (pq : PhysicalQuantities) (const_k : ℚ) (cell : Cell)
    (old_solution_heat : List ℚ) (qp : CellQP) (i j : ℕ) : ℚ :=
  let prev_temperature := fValue qp.shapeHeat cell.dofsHeat old_solution_heat
  let kappa := pq.kappa prev_temperature
  (shapeAt qp.shapeHeat i * shapeAt qp.shapeHeat j
    + const_k * kappa * dotQ (gradAt qp.gradHeat i) (gradAt qp.gradHeat j)) * qp.jxw

/-- Source: `assemble_heating_system_crank_nicolson`, cell rhs loop body (lines
318-322): previous-temperature mass term, Joule term from both potential
gradients, minus the diffusion correction. -/
def cn_rhs_q (pq : PhysicalQuantities) (const_k : ℚ) (cell : Cell)
    (old_solution_heat solution_current old_solution_current : List ℚ)
    (qp : CellQP) (i : ℕ) : ℚ :=
  let prev_temperature := fValue qp.shapeHeat cell.dofsHeat old_solution_heat
  let kappa := pq.kappa prev_temperature
  let sigma := pq.sigma prev_temperature
  let prev_temperature_grad := fGradient qp.gradHeat cell.dofsHeat old_solution_heat
  let pot_grad_squared := normSquare (fGradient qp.gradCur cell.dofsCur solution_current)
  let prev_pot_grad_squared := normSquare (fGradient qp.gradCur cell.dofsCur old_solution_current)
  (shapeAt qp.shapeHeat i * prev_temperature
    + const_k * shapeAt qp.shapeHeat i * sigma * (pot_grad_squared + prev_pot_grad_squared)
    - const_k * kappa * dotQ (gradAt qp.gradHeat i) prev_temperature_grad) * qp.jxw

/-- Source: `assemble_heating_system_crank_nicolson`, face rhs loop body (lines
350-353): `const_k * shape_value(i,q) * 2.0 * nottingham_heat * JxW(q)`. -/
def cn_face_q (const_k nottingham_heat : ℚ) (fqp : FaceQP) (i : ℕ) : ℚ :=
  const_k * shapeAt fqp.shapeHeat i * 2 * nottingham_heat * fqp.jxw

/-- Source: `assemble_heating_system_euler_implicit`, cell matrix loop body
(lines 431-445). -/
def euler_matrix_q (pq : PhysicalQuantities) (gamma : ℚ) (cell : Cell)
    (old_solution_heat : List ℚ) (qp : CellQP) (i j : ℕ) : ℚ :=
  let prev_temperature := fValue qp.shapeHeat cell.dofsHeat old_solution_heat
  let kappa := pq.kappa prev_temperature
  (shapeAt qp.shapeHeat i * shapeAt qp.shapeHeat j
    + gamma * kappa * dotQ (gradAt qp.gradHeat i) (gradAt qp.gradHeat j)) * qp.jxw

/-- Source: `assemble_heating_system_euler_implicit`, cell rhs loop body (lines
446-449): only the current potential gradient enters the Joule term. -/
def euler_rhs_q (pq : PhysicalQuantities) (gamma : ℚ) (cell : Cell)
    (old_solution_heat solution_current : List ℚ) (qp : CellQP) (i : ℕ) : ℚ :=
  let prev_temperature := fValue qp.shapeHeat cell.dofsHeat old_solution_heat
  let sigma := pq.sigma prev_temperature
  let pot_grad_squared := normSquare (fGradient qp.gradCur cell.dofsCur solution_current)
  (shapeAt qp.shapeHeat i * prev_temperature
    + gamma * shapeAt qp.shapeHeat i * sigma * pot_grad_squared) * qp.jxw

/-- Source: `assemble_heating_system_euler_implicit`, face rhs loop body (lines
477-480): `gamma * shape_value(i,q) * nottingham_heat * JxW(q)`. -/
def euler_face_q (gamma nottingham_heat : ℚ) (fqp : FaceQP) (i : ℕ) : ℚ :=
  gamma * shapeAt fqp.shapeHeat i * nottingham_heat * fqp.jxw

/-! ## Cell-level assembly -/

/-- Local cell matrix of `assemble_current_system`: the quadrature loop
accumulated into one entry. -/
def curCellMatrix (pq : PhysicalQuantities) (cell : Cell) (solution_heat : List ℚ)
    (i j : ℕ) : ℚ :=
  (cell.qps.map (fun qp => cur_matrix_q pq cell solution_heat qp i j)).sum

/-- Face loop of the `assemble_current_system` local rhs (lines 198-223):
emission-current flux on every boundary face marked `copper_surface`,
with the emission current looked up through `get_emission_current_bc` at
the face-quadrature temperature of the current heat solution. -/
def curFaceRhsFaces (st : FchState) (cell : Cell) (i : ℕ) : ℕ → List Face → ℚ
  | _, [] => 0
  | f, face :: rest =>
    (if face.at_boundary && (face.bid == copper_surface) then
      ((face.fq.map (fun fqp =>
        let temperature := fValue fqp.shapeHeat cell.dofsHeat st.solution_heat
        let emission_current := get_emission_current_bc st (cell.index, f) temperature
        cur_face_q emission_current fqp i)).sum)
    else 0) + curFaceRhsFaces st cell i (f + 1) rest

/-- Local cell rhs of `assemble_current_system` (face terms only; the
cell loop contributes nothing to the rhs). -/
def curCellRhs (st : FchState) (cell : Cell) (i : ℕ) : ℚ :=
  curFaceRhsFaces st cell i 0 cell.faces

/-- Local cell matrix of `assemble_heating_system_crank_nicolson`. -/
def cnCellMatrix (st : FchState) (const_k : ℚ) (cell : Cell) (i j : ℕ) : ℚ :=
  (cell.qps.map (fun qp => cn_matrix_q st.pq const_k cell st.old_solution_heat qp i j)).sum

/-- Face loop of the Crank-Nicolson local rhs (lines 332-356): Nottingham
flux with the doubled half-step weight, the heat looked up through
`get_nottingham_heat_bc` at the face-quadrature previous temperature. -/
def cnFaceRhsFaces (st : FchState) (const_k : ℚ) (cell : Cell) (i : ℕ) : ℕ → List Face → ℚ
  | _, [] => 0
  | f, face :: rest =>
    (if face.at_boundary && (face.bid == copper_surface) then
      ((face.fq.map (fun fqp =>
        let prev_temperature := fValue fqp.shapeHeat cell.dofsHeat st.old_solution_heat
        let nottingham_heat := get_nottingham_heat_bc st (cell.index, f) prev_temperature
        cn_face_q const_k nottingham_heat fqp i)).sum)
    else 0) + cnFaceRhsFaces st const_k cell i (f + 1) rest

/-- Local cell rhs of `assemble_heating_system_crank_nicolson`. -/
def cnCellRhs (st : FchState) (const_k : ℚ) (cell : Cell) (i : ℕ) : ℚ :=
  (cell.qps.map (fun qp => cn_rhs_q st.pq const_k cell st.old_solution_heat
    st.solution_current st.old_solution_current qp i)).sum
    + cnFaceRhsFaces st const_k cell i 0 cell.faces

/-- Local cell matrix of `assemble_heating_system_euler_implicit`. -/
def eulerCellMatrix (st : FchState) (gamma : ℚ) (cell : Cell) (i j : ℕ) : ℚ :=
  (cell.qps.map (fun qp => euler_matrix_q st.pq gamma cell st.old_solution_heat qp i j)).sum

/-- Face loop of the implicit-Euler local rhs (lines 459-483). -/
def eulerFaceRhsFaces (st : FchState) (gamma : ℚ) (cell : Cell) (i : ℕ) : ℕ → List Face → ℚ
  | _, [] => 0
  | f, face :: rest =>
    (if face.at_boundary && (face.bid == copper_surface) then
      ((face.fq.map (fun fqp =>
        let prev_temperature := fValue fqp.shapeHeat cell.dofsHeat st.old_solution_heat
        let nottingham_heat := get_nottingham_heat_bc st (cell.index, f) prev_temperature
        euler_face_q gamma nottingham_heat fqp i)).sum)
    else 0) + eulerFaceRhsFaces st gamma cell i (f + 1) rest

/-- Local cell rhs of `assemble_heating_system_euler_implicit`. -/
def eulerCellRhs (st : FchState) (gamma : ℚ) (cell : Cell) (i : ℕ) : ℚ :=
  (cell.qps.map (fun qp => euler_rhs_q st.pq gamma cell st.old_solution_heat
    st.solution_current qp i)).sum
    + eulerFaceRhsFaces st gamma cell i 0 cell.faces

/-! ## Global assembly and Dirichlet elimination -/

/-- Scatter one cell's local matrix and rhs into the global structures
(the `get_dof_indices` / `system_matrix.add` / `system_rhs(...) +=` block
closing every assembly loop). -/
def scatterLocal (dofs : List ℕ) (cm : ℕ → ℕ → ℚ) (cr : ℕ → ℚ)
    (M : Triplets) (rhs : List ℚ) : Triplets × List ℚ :=
  (M ++ (List.range dofs.length).flatMap (fun i => (List.range dofs.length).map (fun j =>
      ((dofs.getD i 0, dofs.getD j 0), cm i j))),
   (List.range dofs.length).foldl
     (fun r i => r.set (dofs.getD i 0) (r.getD (dofs.getD i 0) 0 + cr i)) rhs)

/-- Modelled from the spec: deal.II `VectorTools::interpolate_boundary_values`
followed by `MatrixTools::apply_boundary_values` — Dirichlet conditions
"applied by elimination after assembly": each base-boundary dof row of
the matrix becomes a unit diagonal row, and the solution and rhs entries
of those dofs are set to the boundary value. -/
def apply_boundary_values (bdofs : List ℕ) (value : ℚ) (M : Triplets)
    (sol rhs : List ℚ) : Triplets × List ℚ × List ℚ :=
  (M.filter (fun t => !(bdofs.contains t.1.1)) ++ bdofs.map (fun d => ((d, d), 1)),
   bdofs.foldl (fun s d => s.set d value) sol,
   bdofs.foldl (fun r d => r.set d value) rhs)

/-- Cell loop of `assemble_current_system` (lines 169-232). -/
def assembleCellsCurrent (st : FchState) : List Cell → Triplets × List ℚ → Triplets × List ℚ
  | [], acc => acc
  | cell :: rest, acc =>
    assembleCellsCurrent st rest
      (scatterLocal cell.dofsCur
        (fun i j => curCellMatrix st.pq cell st.solution_heat i j)
        (fun i => curCellRhs st cell i) acc.1 acc.2)

/-- Source: `CurrentsAndHeating::assemble_current_system` (lines 136-238):
accumulate all cell contributions onto the existing matrix and rhs, then
eliminate the zero-potential base boundary. -/
def assemble_current_system (st : FchState) : FchState :=
  let mr := assembleCellsCurrent st st.mesh (st.system_matrix_current, st.system_rhs_current)
  let bv := apply_boundary_values st.bottomDofsCurrent 0 mr.1 st.solution_current mr.2
  { st with system_matrix_current := bv.1, solution_current := bv.2.1,
            system_rhs_current := bv.2.2 }

/-- Cell loop of `assemble_heating_system_crank_nicolson` (lines 281-365). -/
def assembleCellsHeatCN (st : FchState) (const_k : ℚ) :
    List Cell → Triplets × List ℚ → Triplets × List ℚ
  | [], acc => acc
  | cell :: rest, acc =>
    assembleCellsHeatCN st const_k rest
      (scatterLocal cell.dofsHeat
        (fun i j => cnCellMatrix st const_k cell i j)
        (fun i => cnCellRhs st const_k cell i) acc.1 acc.2)

/-- Source: `CurrentsAndHeating::assemble_heating_system_crank_nicolson` (lines
241-373) with `const_k = time_step / (2 * cu_rho_cp)`, closing with the
ambient-temperature elimination on the base boundary. -/
def assemble_heating_system_crank_nicolson (st : FchState) : FchState :=
  let const_k := st.time_step / (2 * cu_rho_cp)
  let mr := assembleCellsHeatCN st const_k st.mesh (st.system_matrix_heat, st.system_rhs_heat)
  let bv := apply_boundary_values st.bottomDofsHeat ambient_temperature mr.1 st.solution_heat mr.2
  { st with system_matrix_heat := bv.1, solution_heat := bv.2.1, system_rhs_heat := bv.2.2 }

/-- Cell loop of `assemble_heating_system_euler_implicit` (lines 414-492). -/
def assembleCellsHeatEuler (st : FchState) (gamma : ℚ) :
    List Cell → Triplets × List ℚ → Triplets × List ℚ
  | [], acc => acc
  | cell :: rest, acc =>
    assembleCellsHeatEuler st gamma rest
      (scatterLocal cell.dofsHeat
        (fun i j => eulerCellMatrix st gamma cell i j)
        (fun i => eulerCellRhs st gamma cell i) acc.1 acc.2)

/-- Source: `CurrentsAndHeating::assemble_heating_system_euler_implicit` (lines
376-500) with `gamma = time_step / cu_rho_cp`. -/
def assemble_heating_system_euler_implicit (st : FchState) : FchState :=
  let gamma := st.time_step / cu_rho_cp
  let mr := assembleCellsHeatEuler st gamma st.mesh (st.system_matrix_heat, st.system_rhs_heat)
  let bv := apply_boundary_values st.bottomDofsHeat ambient_temperature mr.1 st.solution_heat mr.2
  { st with system_matrix_heat := bv.1, solution_heat := bv.2.1, system_rhs_heat := bv.2.2 }

/-! ## Setup and linear solve -/

/-- Source: `CurrentsAndHeating::setup_current_system` (lines 86-107): reinit
zeroes the system, and the closing loop writes 0 into both solution
vectors. -/
def setup_current_system (st : FchState) : FchState :=
  { st with system_matrix_current := [],
            solution_current := List.replicate st.nDofsCurrent 0,
            old_solution_current := List.replicate st.nDofsCurrent 0,
            system_rhs_current := List.replicate st.nDofsCurrent 0 }

/-- Source: `CurrentsAndHeating::setup_heating_system` (lines 109-134): reinit,
then the closing loop writes the ambient temperature into both solution
vectors and 1000 into the constant-temperature helper vector. -/
def setup_heating_system (st : FchState) : FchState :=
  { st with system_matrix_heat := [],
            solution_heat := List.replicate st.nDofsHeat ambient_temperature,
            old_solution_heat := List.replicate st.nDofsHeat ambient_temperature,
            system_rhs_heat := List.replicate st.nDofsHeat 0,
            const_temperature_solution := List.replicate st.nDofsHeat 1000 }

/-- Modelled from the spec: the iteration loop of the external deal.II
`SolverCG` under a `SolverControl(max_iter, tol)`: starting from the
supplied initial vector it performs correction steps, stopping as soon as
the residual norm is within the tolerance or the iteration cap is
reached, and reports the number of steps it used
(`SolverControl::last_step`).  The particular correction step is internal
to the library and modelled as a plain residual update; the claims below
depend only on the stopping/step-count contract. -/
def cgGo (A : Triplets) (b : List ℚ) (tol : ℚ) : ℕ → List ℚ → ℕ → List ℚ × ℕ
  | 0, x, steps => (x, steps)
  | fuel + 1, x, steps =>
    let r := vsubQ b (matVec A x)
    if l1norm r ≤ tol then (x, steps)
    else cgGo A b tol fuel (vaddQ x r) (steps + 1)

/-- The modelled conjugate-gradient solve: solution vector and number of
iterations used. -/
def cgSolve (A : Triplets) (x0 b : List ℚ) (max_iter : ℕ) (tol : ℚ) : List ℚ × ℕ :=
  cgGo A b tol max_iter x0 0

/-- Source: `CurrentsAndHeating::solve_current` (lines 502-521): copy the current
solution into the previous-solution vector, run the solver, return the
iteration count.  The preconditioner switch changes only the library
iteration path, not the return contract, and is ignored by the modelled
solver. -/
def solve_current (st : FchState) (max_iter : ℕ) (tol : ℚ)
    (pc_ssor : Bool) (ssor_param : ℚ) : FchState × ℕ :=
  let st1 := { st with old_solution_current := st.solution_current }
  let res := cgSolve st1.system_matrix_current st1.solution_current
    st1.system_rhs_current max_iter tol
  ({ st1 with solution_current := res.1 }, res.2)

/-- Source: `CurrentsAndHeating::solve_heat` (lines 523-542). -/
def solve_heat (st : FchState) (max_iter : ℕ) (tol : ℚ)
    (pc_ssor : Bool) (ssor_param : ℚ) : FchState × ℕ :=
  let st1 := { st with old_solution_heat := st.solution_heat }
  let res := cgSolve st1.system_matrix_heat st1.solution_heat
    st1.system_rhs_heat max_iter tol
  ({ st1 with solution_heat := res.1 }, res.2)

/-! ## Specification-side descriptions (used to state the claims) -/

/-- Specification-side description of the per-face map built by the
ordered-values setter: the traversal-ordered keys paired with the
supplied values in order, the value index starting at `i`. -/
def zipVals (elfields : List ℚ) : ℕ → List (ℕ × ℕ) → AssocMap
  | _, [] => []
  | i, k :: ks => (k, elfields.getD i 0) :: zipVals elfields (i + 1) ks

/-- Specification-side description of the map the centroid matching
builds: every face whose center has a vacuum match within `eps` is paired
with the value of its first match; unmatched faces are skipped. -/
def matchedOf (vac : List (ℚ × ℚ)) (eps : ℚ) (kcs : List ((ℕ × ℕ) × ℚ)) : AssocMap :=
  kcs.filterMap (fun kc =>
    (vac.find? (fun cv => decide (|kc.2 - cv.1| < eps))).map (fun cv => (kc.1, cv.2)))

/-- Specification-side description of the unmatched-face diagnostics of
the centroid matching. -/
def unmatchedOf (vac : List (ℚ × ℚ)) (eps : ℚ) (kcs : List ((ℕ × ℕ) × ℚ)) : List (ℕ × ℕ) :=
  kcs.filterMap (fun kc =>
    match vac.find? (fun cv => decide (|kc.2 - cv.1| < eps)) with
    | some _ => none
    | none => some kc.1)

/-! ## Concrete sample data for witnesses and counterexamples -/

/-- A small strictly increasing property table. -/
def data0 : List (ℚ × ℚ) := [(0, 1), (1, 3), (2, 2)]

/-- A small interpolation grid. -/
def grid0 : InterpolationGrid :=
  { v := [0, 0, 0, 0], xmin := 0, xmax := 1, ymin := 0, ymax := 1, xnum := 2, ynum := 2 }

/-- A concrete physical-quantities object over the sample table. -/
def pq0 : PhysicalQuantities :=
  { resistivity_data := data0, emission_grid := grid0, nottingham_grid := grid0,
    expFn := fun x => x, logFn := fun x => x }

/-- An interface face at center 0. -/
def faceA : Face := { at_boundary := true, bid := copper_surface, center := 0, fq := [] }

/-- An interface face at center 1. -/
def faceB : Face := { at_boundary := true, bid := copper_surface, center := 1, fq := [] }

/-- A base-boundary face. -/
def faceC : Face := { at_boundary := true, bid := copper_bottom, center := 2, fq := [] }

/-- A sample two-cell mesh with one interface face per cell. -/
def meshW : List Cell :=
  [{ index := 0, dofsCur := [0, 1], dofsHeat := [0, 1], qps := [], faces := [faceA, faceC] },
   { index := 1, dofsCur := [1, 2], dofsHeat := [1, 2], qps := [], faces := [faceB] }]

/-- A concrete solver state over the sample mesh: empty interface maps,
a one-dof current system whose rhs cannot be met by the modelled solver
within one step. -/
def baseState : FchState :=
  { time_step := 1, uniform_efield_bc := 1, mesh := meshW,
    nDofsCurrent := 2, nDofsHeat := 2,
    bottomDofsCurrent := [], bottomDofsHeat := [],
    system_matrix_current := [], system_rhs_current := [1],
    solution_current := [0], old_solution_current := [],
    system_matrix_heat := [], system_rhs_heat := [1],
    solution_heat := [0], old_solution_heat := [],
    const_temperature_solution := [], pq := pq0,
    interface_map_field := [], interface_map_emission_current := [],
    interface_map_nottingham := [] }

/-- The sample state with a one-entry per-face field map left over from
an earlier per-face boundary-condition call. -/
def mapState : FchState := { baseState with interface_map_field := [((0, 0), 5)] }

/-- A vacuum mesh whose interface faces sit at centers 10 and 0, with
field norms 7 and 9. -/
def lapW : Laplace :=
  { cells := [{ faces := [{ bid := copper_surface, center := 10, efieldNorm := 7 },
                          { bid := copper_surface, center := 0, efieldNorm := 9 }] }] }

/-! # Theorems -/

/-! ## Generic helpers -/

theorem getD_replicate {α : Type} (n i : ℕ) (c d : α) (h : i < n) :
    (List.replicate n c).getD i d = c := by
  induction n generalizing i with
  | zero => omega
  | succ n ih =>
    cases i with
    | zero => rfl
    | succ i => exact ih i (by omega)

theorem seq_clamp_eq (T : ℚ) :
    (if 1400 < (if T < 200 then (200 : ℚ) else T) then (1400 : ℚ)
     else (if T < 200 then (200 : ℚ) else T)) = clampWindow T := by
  unfold clampWindow
  rcases lt_or_le T 200 with h1 | h1
  · rw [if_pos h1, if_neg (by norm_num), min_eq_left (by linarith),
      max_eq_left (le_of_lt h1)]
  · rw [if_neg (not_lt.mpr h1)]
    rcases lt_or_le 1400 T with h2 | h2
    · rw [if_pos h2, min_eq_right (le_of_lt h2), max_eq_right (by norm_num)]
    · rw [if_neg (not_lt.mpr h2), min_eq_left h2, max_eq_right h1]

/-! ## C6 -/

/-- C6: for every temperature T, sigma(T) is the reciprocal of the
interpolated resistivity at T clamped to the validity window [200, 1400],
and kappa(T) is the Lorentz number times the clamped temperature times
sigma of the clamped temperature. -/
theorem C6_sigma_kappa (pq : PhysicalQuantities) (T : ℚ) :
    pq.sigma T = 1 / pq.evaluate_resistivity (clampWindow T) ∧
    pq.kappa T = lorentzNumber * clampWindow T * pq.sigma (clampWindow T) := by
  constructor
  · simp only [PhysicalQuantities.sigma]
    rw [seq_clamp_eq]
  · simp only [PhysicalQuantities.kappa]
    rw [seq_clamp_eq]

/-! ## C10 -/

/-- C10: after setup_heating_system every entry of both temperature
vectors equals the ambient temperature 300, and after
setup_current_system every entry of both potential vectors equals 0. -/
theorem C10_setup_initial_state (st : FchState) (i : ℕ) :
    (i < st.nDofsHeat →
      (setup_heating_system st).solution_heat.getD i 0 = 300 ∧
      (setup_heating_system st).old_solution_heat.getD i 0 = 300) ∧
    (i < st.nDofsCurrent →
      (setup_current_system st).solution_current.getD i 0 = 0 ∧
      (setup_current_system st).old_solution_current.getD i 0 = 0) ∧
    (setup_heating_system st).solution_heat.length = st.nDofsHeat ∧
    (setup_heating_system st).old_solution_heat.length = st.nDofsHeat ∧
    (setup_current_system st).solution_current.length = st.nDofsCurrent ∧
    (setup_current_system st).old_solution_current.length = st.nDofsCurrent := by
  refine ⟨fun h => ⟨?_, ?_⟩, fun h => ⟨?_, ?_⟩, ?_, ?_, ?_, ?_⟩ <;>
    simp only [setup_heating_system, setup_current_system, List.length_replicate]
  · exact getD_replicate _ _ _ _ h
  · exact getD_replicate _ _ _ _ h
  · exact getD_replicate _ _ _ _ h
  · exact getD_replicate _ _ _ _ h

/-- Witness for C10 at the concrete sample state. -/
theorem C10_witness :
    0 < baseState.nDofsHeat ∧ 0 < baseState.nDofsCurrent ∧
    (setup_heating_system baseState).solution_heat.getD 0 0 = 300 ∧
    (setup_current_system baseState).old_solution_current.getD 0 0 = 0 :=
  ⟨by decide, by decide,
   ((C10_setup_initial_state baseState 0).1 (by decide)).1,
   ((C10_setup_initial_state baseState 0).2.1 (by decide)).2⟩

/-! ## C1 -/

/-- C1 counterexample: with a per-face map left in place, calling the
uniform setter with c = 2 does not make the lookup return 2 — the stale
map entry (value 5) still wins. -/
theorem C1_counterexample :
    get_efield_bc (set_electric_field_bc_uniform mapState 2) (0, 0) ≠ 2 := by
  decide

/-- C1 (amended): set_electric_field_bc(c) stores the uniform scalar and
leaves the per-face map untouched (it does not clear it); whenever the
per-face field map is empty, every subsequent get_efield_bc lookup
returns c. -/
theorem C1_uniform_field_bc (st : FchState) (c : ℚ) (info : ℕ × ℕ) :
    (set_electric_field_bc_uniform st c).interface_map_field = st.interface_map_field ∧
    (set_electric_field_bc_uniform st c).uniform_efield_bc = c ∧
    (st.interface_map_field = [] →
      get_efield_bc (set_electric_field_bc_uniform st c) info = c) := by
  refine ⟨rfl, rfl, fun h => ?_⟩
  simp [get_efield_bc, set_electric_field_bc_uniform, h]

/-- Witness for C1 at the concrete empty-map sample state. -/
theorem C1_witness :
    baseState.interface_map_field = [] ∧
    get_efield_bc (set_electric_field_bc_uniform baseState 2) (0, 0) = 2 :=
  ⟨rfl, (C1_uniform_field_bc baseState 2 (0, 0)).2.2 rfl⟩

/-! ## C9 -/

/-- C9: the first action of solve_current (resp. solve_heat) overwrites
the field's previous-solution vector with its current solution, and no
assembly call or boundary-condition setter modifies either
previous-solution vector (queries are pure functions of the state in this
embedding and cannot modify it). -/
theorem C9_frame_old_solutions (st : FchState) (max_iter : ℕ)
    (tol ssor_param c dt : ℚ) (pc_ssor : Bool)
    (elfields emission_currents nottingham_heats : List ℚ)
    (lap : Laplace) (pqn : PhysicalQuantities) :
    (solve_current st max_iter tol pc_ssor ssor_param).1.old_solution_current
        = st.solution_current ∧
    (solve_current st max_iter tol pc_ssor ssor_param).1.old_solution_heat
        = st.old_solution_heat ∧
    (solve_heat st max_iter tol pc_ssor ssor_param).1.old_solution_heat
        = st.solution_heat ∧
    (solve_heat st max_iter tol pc_ssor ssor_param).1.old_solution_current
        = st.old_solution_current ∧
    (assemble_current_system st).old_solution_current = st.old_solution_current ∧
    (assemble_current_system st).old_solution_heat = st.old_solution_heat ∧
    (assemble_heating_system_crank_nicolson st).old_solution_current
        = st.old_solution_current ∧
    (assemble_heating_system_crank_nicolson st).old_solution_heat
        = st.old_solution_heat ∧
    (assemble_heating_system_euler_implicit st).old_solution_current
        = st.old_solution_current ∧
    (assemble_heating_system_euler_implicit st).old_solution_heat
        = st.old_solution_heat ∧
    (set_electric_field_bc_uniform st c).old_solution_current
        = st.old_solution_current ∧
    (set_electric_field_bc_uniform st c).old_solution_heat = st.old_solution_heat ∧
    (set_electric_field_bc_vector st elfields).old_solution_current
        = st.old_solution_current ∧
    (set_electric_field_bc_vector st elfields).old_solution_heat
        = st.old_solution_heat ∧
    (set_electric_field_bc_laplace st lap).1.old_solution_current
        = st.old_solution_current ∧
    (set_electric_field_bc_laplace st lap).1.old_solution_heat
        = st.old_solution_heat ∧
    (set_emission_bc st emission_currents nottingham_heats).old_solution_current
        = st.old_solution_current ∧
    (set_emission_bc st emission_currents nottingham_heats).old_solution_heat
        = st.old_solution_heat ∧
    (set_timestep st dt).old_solution_current = st.old_solution_current ∧
    (set_timestep st dt).old_solution_heat = st.old_solution_heat ∧
    (set_physical_quantities st pqn).old_solution_current = st.old_solution_current ∧
    (set_physical_quantities st pqn).old_solution_heat = st.old_solution_heat :=
  ⟨rfl, rfl, rfl, rfl, rfl, rfl, rfl, rfl, rfl, rfl, rfl, rfl, rfl, rfl, rfl, rfl,
   rfl, rfl, rfl, rfl, rfl, rfl⟩

/-! ## C3 -/

theorem cgGo_steps_le (A : Triplets) (b : List ℚ) (tol : ℚ) (fuel : ℕ) :
    ∀ x steps, (cgGo A b tol fuel x steps).2 ≤ steps + fuel := by
  induction fuel with
  | zero => intro x steps; simp [cgGo]
  | succ fuel ih =>
    intro x steps
    simp only [cgGo]
    split
    · exact Nat.le_add_right _ _
    · calc (cgGo A b tol fuel _ (steps + 1)).2 ≤ (steps + 1) + fuel := ih _ _
        _ = steps + (fuel + 1) := by omega

theorem cgGo_exhaust (A : Triplets) (b : List ℚ) (tol : ℚ) (fuel : ℕ) :
    ∀ x steps, tol < l1norm (vsubQ b (matVec A (cgGo A b tol fuel x steps).1)) →
      (cgGo A b tol fuel x steps).2 = steps + fuel := by
  induction fuel with
  | zero => intro x steps _; simp [cgGo]
  | succ fuel ih =>
    intro x steps h
    simp only [cgGo] at h ⊢
    by_cases hc : l1norm (vsubQ b (matVec A x)) ≤ tol
    · rw [if_pos hc] at h
      exact absurd h (not_lt.mpr hc)
    · rw [if_neg hc] at h ⊢
      rw [ih _ _ h]
      omega

/-- C3: solve_current and solve_heat return exactly the iteration count
the conjugate-gradient run used; the count never exceeds the cap, and
when the returned solution still violates the tolerance (non-convergence
within the cap) the functions still return normally, reporting the full
cap as the count — no failure is raised in the solve routines. -/
theorem C3_solve_returns_iteration_count (st : FchState) (max_iter : ℕ)
    (tol ssor_param : ℚ) (pc_ssor : Bool) :
    ((solve_current st max_iter tol pc_ssor ssor_param).2 =
      (cgSolve st.system_matrix_current st.solution_current
        st.system_rhs_current max_iter tol).2) ∧
    ((solve_heat st max_iter tol pc_ssor ssor_param).2 =
      (cgSolve st.system_matrix_heat st.solution_heat
        st.system_rhs_heat max_iter tol).2) ∧
    (solve_current st max_iter tol pc_ssor ssor_param).2 ≤ max_iter ∧
    (solve_heat st max_iter tol pc_ssor ssor_param).2 ≤ max_iter ∧
    (tol < l1norm (vsubQ st.system_rhs_current (matVec st.system_matrix_current
        (solve_current st max_iter tol pc_ssor ssor_param).1.solution_current)) →
      (solve_current st max_iter tol pc_ssor ssor_param).2 = max_iter) ∧
    (tol < l1norm (vsubQ st.system_rhs_heat (matVec st.system_matrix_heat
        (solve_heat st max_iter tol pc_ssor ssor_param).1.solution_heat)) →
      (solve_heat st max_iter tol pc_ssor ssor_param).2 = max_iter) := by
  refine ⟨rfl, rfl, ?_, ?_, fun h => ?_, fun h => ?_⟩
  · simpa using cgGo_steps_le st.system_matrix_current st.system_rhs_current tol
      max_iter st.solution_current 0
  · simpa using cgGo_steps_le st.system_matrix_heat st.system_rhs_heat tol
      max_iter st.solution_heat 0
  · simpa using cgGo_exhaust st.system_matrix_current st.system_rhs_current tol
      max_iter st.solution_current 0 h
  · simpa using cgGo_exhaust st.system_matrix_heat st.system_rhs_heat tol
      max_iter st.solution_heat 0 h

/-- Witness for C3: on the concrete sample state the modelled solver
cannot reach the (zero) tolerance within one iteration, and solve_current
still returns with the full count 1. -/
theorem C3_witness :
    ((0 : ℚ) < l1norm (vsubQ baseState.system_rhs_current
      (matVec baseState.system_matrix_current
        (solve_current baseState 1 0 true 1).1.solution_current))) ∧
    (solve_current baseState 1 0 true 1).2 = 1 := by
  have h : (0 : ℚ) < l1norm (vsubQ baseState.system_rhs_current
      (matVec baseState.system_matrix_current
        (solve_current baseState 1 0 true 1).1.solution_current)) := by
    norm_num [solve_current, cgSolve, cgGo, baseState, matVec, vsubQ, vaddQ, l1norm]
  exact ⟨h, (C3_solve_returns_iteration_count baseState 1 0 1 true).2.2.2.2.1 h⟩

/-! ## C2 -/

/-- C2: at every quadrature point the Crank-Nicolson heat assembly adds
mass plus (time_step/(2 rho_cp)) kappa(T_old) stiffness to the local
matrix, and to the local right-hand side the mass term applied to T_old,
the Joule term with coefficient
(time_step/(2 rho_cp)) sigma(T_old) (|grad phi|^2 + |grad phi_old|^2),
minus the (time_step/(2 rho_cp)) kappa(T_old) grad(T_old) diffusion
correction; the Nottingham face term carries weight twice
time_step/(2 rho_cp), i.e. double the per-half-step weight, equal to
implicit Euler's single time_step/rho_cp face weight. -/
theorem C2_crank_nicolson_weak_form (st : FchState) (cell : Cell) (qp : CellQP)
    (fqp : FaceQP) (i j : ℕ) (nottingham_heat : ℚ) :
    (cn_matrix_q st.pq (st.time_step / (2 * cu_rho_cp)) cell st.old_solution_heat qp i j =
      (shapeAt qp.shapeHeat i * shapeAt qp.shapeHeat j
        + st.time_step / (2 * cu_rho_cp)
          * st.pq.kappa (fValue qp.shapeHeat cell.dofsHeat st.old_solution_heat)
          * dotQ (gradAt qp.gradHeat i) (gradAt qp.gradHeat j)) * qp.jxw) ∧
    (cn_rhs_q st.pq (st.time_step / (2 * cu_rho_cp)) cell st.old_solution_heat
        st.solution_current st.old_solution_current qp i =
      (shapeAt qp.shapeHeat i * fValue qp.shapeHeat cell.dofsHeat st.old_solution_heat
        + st.time_step / (2 * cu_rho_cp)
          * st.pq.sigma (fValue qp.shapeHeat cell.dofsHeat st.old_solution_heat)
          * (normSquare (fGradient qp.gradCur cell.dofsCur st.solution_current)
             + normSquare (fGradient qp.gradCur cell.dofsCur st.old_solution_current))
          * shapeAt qp.shapeHeat i
        - st.time_step / (2 * cu_rho_cp)
          * st.pq.kappa (fValue qp.shapeHeat cell.dofsHeat st.old_solution_heat)
          * dotQ (gradAt qp.gradHeat i)
              (fGradient qp.gradHeat cell.dofsHeat st.old_solution_heat)) * qp.jxw) ∧
    (cn_face_q (st.time_step / (2 * cu_rho_cp)) nottingham_heat fqp i =
      2 * (st.time_step / (2 * cu_rho_cp)) * shapeAt fqp.shapeHeat i
        * nottingham_heat * fqp.jxw) ∧
    (euler_face_q (st.time_step / cu_rho_cp) nottingham_heat fqp i =
      (st.time_step / cu_rho_cp) * shapeAt fqp.shapeHeat i
        * nottingham_heat * fqp.jxw) ∧
    (2 * (st.time_step / (2 * cu_rho_cp)) = st.time_step / cu_rho_cp) := by
  refine ⟨?_, ?_, ?_, ?_, ?_⟩
  · simp only [cn_matrix_q]
  · simp only [cn_rhs_q]; ring
  · simp only [cn_face_q]; ring
  · simp only [euler_face_q]
  · rw [← mul_div_assoc, mul_div_mul_left _ _ (two_ne_zero)]

/-! ## Sorted-table facts and the lower_bound characterisation -/

theorem sortedX_lt_of_lt (data : List (ℚ × ℚ)) (hs : sortedX data) {i j : ℕ}
    (hij : i < j) (hj : j < data.length) :
    (data.getD i (0, 0)).1 < (data.getD j (0, 0)).1 := by
  have hi : i < data.length := lt_trans hij hj
  rw [List.getD_eq_getElem _ _ hi, List.getD_eq_getElem _ _ hj]
  have := List.pairwise_iff_get.mp hs ⟨i, hi⟩ ⟨j, hj⟩ hij
  simpa using this

theorem sortedX_le_of_le (data : List (ℚ × ℚ)) (hs : sortedX data) {i j : ℕ}
    (hij : i ≤ j) (hj : j < data.length) :
    (data.getD i (0, 0)).1 ≤ (data.getD j (0, 0)).1 := by
  rcases eq_or_lt_of_le hij with rfl | h
  · exact le_refl _
  · exact le_of_lt (sortedX_lt_of_lt data hs h hj)

theorem lbGo_spec (data : List (ℚ × ℚ)) (x : ℚ) (hs : sortedX data) (fuel : ℕ) :
    ∀ first len, len ≤ fuel → first + len ≤ data.length →
    (∀ j, j < first → (data.getD j (0, 0)).1 < x) →
    (∀ j, first + len ≤ j → j < data.length → x ≤ (data.getD j (0, 0)).1) →
    first ≤ lbGo data x fuel first len ∧
    lbGo data x fuel first len ≤ first + len ∧
    (∀ j, j < lbGo data x fuel first len → (data.getD j (0, 0)).1 < x) ∧
    (lbGo data x fuel first len < data.length →
      x ≤ (data.getD (lbGo data x fuel first len) (0, 0)).1) := by
  induction fuel with
  | zero =>
    intro first len hf _ hlow hhigh
    have hlen0 : len = 0 := Nat.le_zero.mp hf
    subst hlen0
    simp only [lbGo]
    exact ⟨le_refl _, Nat.le_add_right _ _, hlow, fun hlt => hhigh _ (by omega) hlt⟩
  | succ fuel ih =>
    intro first len hf hr hlow hhigh
    by_cases hlen : len = 0
    · subst hlen
      have hred : lbGo data x (fuel + 1) first 0 = first := by simp [lbGo]
      rw [hred]
      exact ⟨le_refl _, Nat.le_add_right _ _, hlow, fun hlt => hhigh _ (by omega) hlt⟩
    · have hlpos : 0 < len := Nat.pos_of_ne_zero hlen
      have hhalf : len / 2 < len := Nat.div_lt_self hlpos one_lt_two
      have hmidlt : first + len / 2 < data.length := by omega
      simp only [lbGo, if_neg hlen]
      by_cases hmid : (data.getD (first + len / 2) (0, 0)).1 < x
      · rw [if_pos hmid]
        have h1 := ih (first + len / 2 + 1) (len - len / 2 - 1) (by omega) (by omega)
          (fun j hj => by
            rcases lt_or_le j first with hjf | hjf
            · exact hlow j hjf
            · rcases eq_or_lt_of_le (Nat.lt_succ_iff.mp hj) with rfl | hjm
              · exact hmid
              · exact lt_of_le_of_lt
                  (sortedX_le_of_le data hs (Nat.lt_succ_iff.mp (Nat.lt_succ_of_lt hjm)) hmidlt)
                  hmid)
          (fun j hj1 hj2 => hhigh j (by omega) hj2)
        refine ⟨by omega, by omega, h1.2.2.1, h1.2.2.2⟩
      · rw [if_neg hmid]
        have h1 := ih first (len / 2) (by omega) (by omega) hlow
          (fun j hj1 hj2 => le_trans (not_lt.mp hmid)
            (sortedX_le_of_le data hs hj1 hj2))
        refine ⟨h1.1, by omega, h1.2.2.1, h1.2.2.2⟩

theorem lowerBound_spec (data : List (ℚ × ℚ)) (x : ℚ) (hs : sortedX data) :
    lowerBound data x ≤ data.length ∧
    (∀ j, j < lowerBound data x → (data.getD j (0, 0)).1 < x) ∧
    (lowerBound data x < data.length → x ≤ (data.getD (lowerBound data x) (0, 0)).1) := by
  have h := lbGo_spec data x hs data.length 0 data.length (le_refl _) (by omega)
    (fun j hj => absurd hj (Nat.not_lt_zero j)) (fun j hj1 hj2 => absurd hj2 (by omega))
  refine ⟨?_, ?_, ?_⟩
  · simpa [lowerBound] using h.2.1
  · simpa [lowerBound] using h.2.2.1
  · simpa [lowerBound] using h.2.2.2

theorem lowerBound_eq (data : List (ℚ × ℚ)) (x : ℚ) (k : ℕ) (hs : sortedX data)
    (hk : k ≤ data.length)
    (hlowk : ∀ j, j < k → (data.getD j (0, 0)).1 < x)
    (hhighk : k < data.length → x ≤ (data.getD k (0, 0)).1) :
    lowerBound data x = k := by
  obtain ⟨hle, hlow, hhigh⟩ := lowerBound_spec data x hs
  rcases lt_trichotomy (lowerBound data x) k with h | h | h
  · exact absurd (hlowk _ h) (not_lt.mpr (hhigh (lt_of_lt_of_le h hk)))
  · exact h
  · exact absurd (hlow _ h) (not_lt.mpr (hhighk (lt_of_lt_of_le h hle)))

/-! ## C4 -/

/-- C4: on a strictly increasing table, linear_interp clamps to the first
sample value below the table, to the last sample value above it,
reproduces every sample exactly, and between two adjacent samples the
binary search locates the bracket (lower_bound returns i+1) and the
result is the linear interpolation between them. -/
theorem C4_linear_interp (data : List (ℚ × ℚ)) (hs : sortedX data) (hne : data ≠ []) :
    (∀ x, x ≤ (data.getD 0 (0, 0)).1 → linear_interp x data = (data.getD 0 (0, 0)).2) ∧
    (∀ x, (data.getD (data.length - 1) (0, 0)).1 ≤ x →
      linear_interp x data = (data.getD (data.length - 1) (0, 0)).2) ∧
    (∀ i, i < data.length →
      linear_interp (data.getD i (0, 0)).1 data = (data.getD i (0, 0)).2) ∧
    (∀ i x, i + 1 < data.length →
      (data.getD i (0, 0)).1 < x → x < (data.getD (i + 1) (0, 0)).1 →
      lowerBound data x = i + 1 ∧
      linear_interp x data = (data.getD i (0, 0)).2 +
        ((data.getD (i + 1) (0, 0)).2 - (data.getD i (0, 0)).2) * (x - (data.getD i (0, 0)).1)
          / ((data.getD (i + 1) (0, 0)).1 - (data.getD i (0, 0)).1)) := by
  have hlen : 0 < data.length := List.length_pos.mpr hne
  refine ⟨?_, ?_, ?_, ?_⟩
  · intro x hx
    simp only [linear_interp]
    rw [if_pos hx]
  · intro x hx
    by_cases hx0 : x ≤ (data.getD 0 (0, 0)).1
    · simp only [linear_interp]
      rw [if_pos hx0]
      rcases Nat.eq_or_lt_of_le hlen with h1 | h1
      · rw [show data.length - 1 = 0 by omega]
      · have := sortedX_lt_of_lt data hs (show 0 < data.length - 1 by omega)
          (show data.length - 1 < data.length by omega)
        linarith
    · simp only [linear_interp]
      rw [if_neg hx0, if_pos hx]
  · intro i hi
    rcases Nat.eq_zero_or_pos i with rfl | hip
    · simp only [linear_interp]
      rw [if_pos (le_refl _)]
    · have hx0 : ¬ (data.getD i (0, 0)).1 ≤ (data.getD 0 (0, 0)).1 :=
        not_le.mpr (sortedX_lt_of_lt data hs hip hi)
      simp only [linear_interp]
      rw [if_neg hx0]
      by_cases hil : i = data.length - 1
      · rw [if_pos (by rw [hil])]
        rw [hil]
      · have hxL : ¬ (data.getD (data.length - 1) (0, 0)).1 ≤ (data.getD i (0, 0)).1 :=
          not_le.mpr (sortedX_lt_of_lt data hs (show i < data.length - 1 by omega)
            (show data.length - 1 < data.length by omega))
        rw [if_neg hxL]
        have hlb : lowerBound data (data.getD i (0, 0)).1 = i :=
          lowerBound_eq data _ i hs (le_of_lt hi)
            (fun j hj => sortedX_lt_of_lt data hs hj hi)
            (fun _ => le_refl _)
        rw [hlb]
        have hden : (data.getD i (0, 0)).1 - (data.getD (i - 1) (0, 0)).1 ≠ 0 :=
          ne_of_gt (sub_pos.mpr (sortedX_lt_of_lt data hs (show i - 1 < i by omega) hi))
        rw [mul_div_assoc, div_self hden, mul_one]
        ring
  · intro i x h1 h2 h3
    have hx0 : ¬ x ≤ (data.getD 0 (0, 0)).1 := by
      have := sortedX_le_of_le data hs (Nat.zero_le i) (by omega)
      linarith
    have hxL : ¬ (data.getD (data.length - 1) (0, 0)).1 ≤ x := by
      have := sortedX_le_of_le data hs (show i + 1 ≤ data.length - 1 by omega)
        (show data.length - 1 < data.length by omega)
      linarith
    have hlb : lowerBound data x = i + 1 :=
      lowerBound_eq data x (i + 1) hs (by omega)
        (fun j hj => lt_of_le_of_lt
          (sortedX_le_of_le data hs (Nat.lt_succ_iff.mp hj) (by omega)) h2)
        (fun _ => le_of_lt h3)
    refine ⟨hlb, ?_⟩
    simp only [linear_interp]
    rw [if_neg hx0, if_neg hxL, hlb, Nat.add_sub_cancel]

/-- Witness for C4 at a concrete table and interior point. -/
theorem C4_witness :
    sortedX data0 ∧ data0 ≠ [] ∧ linear_interp (1 / 2) data0 = 2 := by
  refine ⟨by decide, by decide, ?_⟩
  have h := ((C4_linear_interp data0 (by decide) (by decide)).2.2.2 0 (1 / 2)
    (by decide) (by norm_num [data0]) (by norm_num [data0])).2
  norm_num [data0] at h
  exact h

/-! ## C5 -/

/-- C5 counterexample: the upper clamp of deriv_linear_interp is not
strictly inside the table bounds — an input above the table is clamped to
exactly the last abscissa, not below it. -/
theorem C5_counterexample :
    ¬ (deriv_clamp 5 data0 < (data0.getD (data0.length - 1) (0, 0)).1) := by
  decide

theorem deriv_clamp_bounds (data : List (ℚ × ℚ)) (x : ℚ) (hs : sortedX data)
    (hlen : 2 ≤ data.length) :
    (data.getD 0 (0, 0)).1 < deriv_clamp x data ∧
    deriv_clamp x data ≤ (data.getD (data.length - 1) (0, 0)).1 := by
  have h0l : (data.getD 0 (0, 0)).1 < (data.getD (data.length - 1) (0, 0)).1 :=
    sortedX_lt_of_lt data hs (by omega) (by omega)
  have heps : (0 : ℚ) < 1 / 10 ^ 10 := by norm_num
  simp only [deriv_clamp]
  split_ifs with h1 h2 h3 <;> constructor <;> linarith

theorem deriv_bracket (data : List (ℚ × ℚ)) (x : ℚ) (hs : sortedX data)
    (hlen : 2 ≤ data.length) :
    1 ≤ lowerBound data (deriv_clamp x data) ∧
    lowerBound data (deriv_clamp x data) ≤ data.length - 1 ∧
    (data.getD (lowerBound data (deriv_clamp x data) - 1) (0, 0)).1 < deriv_clamp x data ∧
    deriv_clamp x data ≤ (data.getD (lowerBound data (deriv_clamp x data)) (0, 0)).1 := by
  obtain ⟨hb1, hb2⟩ := deriv_clamp_bounds data x hs hlen
  obtain ⟨hle, hlow, hhigh⟩ := lowerBound_spec data (deriv_clamp x data) hs
  have hr1 : 1 ≤ lowerBound data (deriv_clamp x data) := by
    by_contra h
    have h0 : lowerBound data (deriv_clamp x data) = 0 := by omega
    have hh := hhigh (by omega)
    rw [h0] at hh
    linarith
  have hr2 : lowerBound data (deriv_clamp x data) ≤ data.length - 1 := by
    by_contra h
    have hh := hlow (data.length - 1) (by omega)
    linarith
  exact ⟨hr1, hr2, hlow _ (by omega), hhigh (by omega)⟩

/-- C5 (amended): deriv_linear_interp clamps its input into the half-open
interval just above the lower table bound (the lower bound nudged up by
eps = 1e-10) and up to and including the upper bound (an input at or
above the last abscissa is clamped to exactly the last abscissa, not
strictly inside); the clamped point is bracketed by two adjacent samples
found by the binary search, the derivative is estimated at each
bracketing sample by a central difference (one-sided at the first and
last samples), and the result is the two estimates linearly blended by
the clamped point's position within the bracket. -/
theorem C5_deriv_linear_interp (data : List (ℚ × ℚ)) (x : ℚ) (hs : sortedX data)
    (hlen : 2 ≤ data.length) :
    ((data.getD 0 (0, 0)).1 < deriv_clamp x data ∧
      deriv_clamp x data ≤ (data.getD (data.length - 1) (0, 0)).1) ∧
    (1 ≤ lowerBound data (deriv_clamp x data) ∧
      lowerBound data (deriv_clamp x data) ≤ data.length - 1 ∧
      (data.getD (lowerBound data (deriv_clamp x data) - 1) (0, 0)).1 < deriv_clamp x data ∧
      deriv_clamp x data ≤ (data.getD (lowerBound data (deriv_clamp x data)) (0, 0)).1) ∧
    (deriv_linear_interp x data =
      evaluate_derivative data (lowerBound data (deriv_clamp x data) - 1)
        + (evaluate_derivative data (lowerBound data (deriv_clamp x data))
            - evaluate_derivative data (lowerBound data (deriv_clamp x data) - 1))
          * (deriv_clamp x data
              - (data.getD (lowerBound data (deriv_clamp x data) - 1) (0, 0)).1)
          / ((data.getD (lowerBound data (deriv_clamp x data)) (0, 0)).1
              - (data.getD (lowerBound data (deriv_clamp x data) - 1) (0, 0)).1)) ∧
    (evaluate_derivative data 0 =
      ((data.getD 1 (0, 0)).2 - (data.getD 0 (0, 0)).2)
        / ((data.getD 1 (0, 0)).1 - (data.getD 0 (0, 0)).1)) ∧
    (∀ j, 0 < j → j = data.length - 1 → evaluate_derivative data j =
      ((data.getD j (0, 0)).2 - (data.getD (j - 1) (0, 0)).2)
        / ((data.getD j (0, 0)).1 - (data.getD (j - 1) (0, 0)).1)) ∧
    (∀ j, 0 < j → j < data.length - 1 → evaluate_derivative data j =
      ((data.getD (j + 1) (0, 0)).2 - (data.getD (j - 1) (0, 0)).2)
        / ((data.getD (j + 1) (0, 0)).1 - (data.getD (j - 1) (0, 0)).1)) := by
  refine ⟨deriv_clamp_bounds data x hs hlen, deriv_bracket data x hs hlen, rfl, ?_, ?_, ?_⟩
  · simp [evaluate_derivative]
  · intro j hj hj2
    simp only [evaluate_derivative]
    rw [if_neg (by omega), if_pos hj2]
  · intro j hj hj2
    simp only [evaluate_derivative]
    rw [if_neg (by omega), if_neg (by omega)]

/-- Witness for C5 at a concrete table and out-of-range input. -/
theorem C5_witness :
    sortedX data0 ∧ 2 ≤ data0.length ∧
    (0 : ℚ) < deriv_clamp 5 data0 ∧ deriv_clamp 5 data0 ≤ 2 :=
  ⟨by decide, by decide,
   (C5_deriv_linear_interp data0 5 (by decide) (by decide)).1.1,
   (C5_deriv_linear_interp data0 5 (by decide) (by decide)).1.2⟩

/-! ## Association-list facts for the interface maps -/

theorem lookup_append_of_none (k : ℕ × ℕ) (l1 l2 : AssocMap)
    (h : List.lookup k l1 = none) :
    List.lookup k (l1 ++ l2) = List.lookup k l2 := by
  induction l1 with
  | nil => rfl
  | cons p t ih =>
    obtain ⟨k1, v⟩ := p
    by_cases hk : k = k1
    · subst hk
      simp [List.lookup_cons] at h
    · have hbeq : (k == k1) = false := beq_eq_false_iff_ne.mpr hk
      rw [List.lookup_cons, hbeq] at h
      rw [List.cons_append, List.lookup_cons, hbeq]
      exact ih h

theorem lookup_singleton_of_ne (k k1 : ℕ × ℕ) (v : ℚ) (h : k ≠ k1) :
    List.lookup k [(k1, v)] = none := by
  rw [List.lookup_cons, beq_eq_false_iff_ne.mpr h]
  rfl

theorem mapInsert_of_none (m : AssocMap) (k : ℕ × ℕ) (v : ℚ)
    (h : List.lookup k m = none) :
    mapInsert m k v = m ++ [(k, v)] := by
  simp [mapInsert, h]

theorem mapCount_eq_zero_iff (m : AssocMap) (k : ℕ × ℕ) :
    mapCount m k = 0 ↔ List.lookup k m = none := by
  induction m with
  | nil => simp [mapCount]
  | cons p t ih =>
    obtain ⟨k1, v⟩ := p
    by_cases hk : k = k1
    · subst hk
      simp [mapCount, List.lookup_cons]
    · have hbeq1 : (k1 == k) = false := beq_eq_false_iff_ne.mpr (Ne.symm hk)
      have hbeq2 : (k == k1) = false := beq_eq_false_iff_ne.mpr hk
      rw [List.lookup_cons, hbeq2]
      simp only [mapCount, List.filter_cons, hbeq1] at ih ⊢
      exact ih

theorem zipVals_length (elfields : List ℚ) :
    ∀ (ks : List (ℕ × ℕ)) (i : ℕ), (zipVals elfields i ks).length = ks.length := by
  intro ks
  induction ks with
  | nil => intro i; rfl
  | cons k t ih => intro i; simp [zipVals, ih]

theorem zipVals_append (elfields : List ℚ) :
    ∀ (l1 l2 : List (ℕ × ℕ)) (i : ℕ),
      zipVals elfields i (l1 ++ l2)
        = zipVals elfields i l1 ++ zipVals elfields (i + l1.length) l2 := by
  intro l1
  induction l1 with
  | nil => intro l2 i; simp [zipVals]
  | cons k t ih =>
    intro l2 i
    simp only [List.cons_append, zipVals, List.length_cons, List.append_eq]
    rw [ih]
    have : i + 1 + t.length = i + (t.length + 1) := by omega
    rw [this]

theorem lookup_zipVals_of_not_mem (elfields : List ℚ) (k : ℕ × ℕ) :
    ∀ (ks : List (ℕ × ℕ)) (i : ℕ), k ∉ ks →
      List.lookup k (zipVals elfields i ks) = none := by
  intro ks
  induction ks with
  | nil => intro i _; rfl
  | cons k1 t ih =>
    intro i hk
    have hne : k ≠ k1 := fun he => hk (he ▸ List.mem_cons_self _ _)
    simp only [zipVals]
    rw [List.lookup_cons, beq_eq_false_iff_ne.mpr hne]
    exact ih (i + 1) (fun hm => hk (List.mem_cons_of_mem _ hm))

theorem lookup_zipVals_getD (elfields : List ℚ) :
    ∀ (ks : List (ℕ × ℕ)) (i t : ℕ), ks.Nodup → t < ks.length →
      List.lookup (ks.getD t (0, 0)) (zipVals elfields i ks)
        = some (elfields.getD (i + t) 0) := by
  intro ks
  induction ks with
  | nil => intro i t _ ht; simp at ht
  | cons k1 rest ih =>
    intro i t hnd ht
    obtain ⟨hk1, hndr⟩ := List.nodup_cons.mp hnd
    cases t with
    | zero =>
      simp only [List.getD_cons_zero, zipVals]
      rw [List.lookup_cons, beq_self_eq_true]
      rfl
    | succ t =>
      have htr : t < rest.length := by simpa using ht
      have hmem : rest.getD t (0, 0) ∈ rest := by
        rw [List.getD_eq_getElem _ _ htr]
        exact List.getElem_mem htr
      have hne : rest.getD t (0, 0) ≠ k1 := fun he => hk1 (he ▸ hmem)
      simp only [List.getD_cons_succ, zipVals]
      rw [List.lookup_cons, beq_eq_false_iff_ne.mpr hne]
      rw [show i + (t + 1) = i + 1 + t by omega]
      exact ih (i + 1) t hndr htr

/-! ## The ordered-values setter builds the zip of keys and values -/

theorem setFieldFaces_eq (elfields : List ℚ) (cellIdx : ℕ) :
    ∀ (faces : List Face) (f : ℕ) (m : AssocMap) (i : ℕ),
      (∀ kc ∈ facesKeysFrom cellIdx f faces, List.lookup kc.1 m = none) →
      (((facesKeysFrom cellIdx f faces).map Prod.fst).Nodup) →
      setFieldFaces elfields cellIdx f faces (m, i)
        = (m ++ zipVals elfields i ((facesKeysFrom cellIdx f faces).map Prod.fst),
           i + (facesKeysFrom cellIdx f faces).length) := by
  intro faces
  induction faces with
  | nil => intro f m i _ _; simp [setFieldFaces, facesKeysFrom, zipVals]
  | cons face rest ih =>
    intro f m i hfresh hnd
    by_cases hbid : face.bid = copper_surface
    · have hkeys : facesKeysFrom cellIdx f (face :: rest)
          = ((cellIdx, f), face.center) :: facesKeysFrom cellIdx (f + 1) rest := by
        simp [facesKeysFrom, if_pos hbid]
      rw [hkeys] at hfresh hnd
      rw [List.map_cons] at hnd
      obtain ⟨hk1, hndr⟩ := List.nodup_cons.mp hnd
      have hkey : List.lookup (cellIdx, f) m = none :=
        hfresh ((cellIdx, f), face.center) (List.mem_cons_self _ _)
      have hstep : setFieldFaces elfields cellIdx f (face :: rest) (m, i)
          = setFieldFaces elfields cellIdx (f + 1) rest
              (m ++ [((cellIdx, f), elfields.getD i 0)], i + 1) := by
        simp only [setFieldFaces, if_pos hbid]
        rw [mapInsert_of_none m _ _ hkey]
      rw [hstep, hkeys]
      have hfresh2 : ∀ kc ∈ facesKeysFrom cellIdx (f + 1) rest,
          List.lookup kc.1 (m ++ [((cellIdx, f), elfields.getD i 0)]) = none := by
        intro kc hkc
        have h1 : List.lookup kc.1 m = none := hfresh kc (List.mem_cons_of_mem _ hkc)
        have h2 : kc.1 ≠ (cellIdx, f) := by
          intro he
          exact hk1 (List.mem_map.mpr ⟨kc, hkc, he⟩)
        rw [lookup_append_of_none _ _ _ h1]
        exact lookup_singleton_of_ne _ _ _ h2
      rw [ih (f + 1) (m ++ [((cellIdx, f), elfields.getD i 0)]) (i + 1) hfresh2 hndr]
      simp only [List.map_cons, List.length_cons, zipVals, List.append_assoc,
        List.singleton_append, Prod.mk.injEq]
      exact ⟨trivial, by omega⟩
    · have hkeys : facesKeysFrom cellIdx f (face :: rest)
          = facesKeysFrom cellIdx (f + 1) rest := by
        simp [facesKeysFrom, if_neg hbid]
      rw [hkeys] at hfresh hnd
      have hstep : setFieldFaces elfields cellIdx f (face :: rest) (m, i)
          = setFieldFaces elfields cellIdx (f + 1) rest (m, i) := by
        simp [setFieldFaces, if_neg hbid]
      rw [hstep, hkeys]
      exact ih (f + 1) m i hfresh hnd

theorem setFieldCells_eq (elfields : List ℚ) :
    ∀ (mesh : List Cell) (m : AssocMap) (i : ℕ),
      (∀ kc ∈ interfaceFaces mesh, List.lookup kc.1 m = none) →
      (interfaceFaceKeys mesh).Nodup →
      setFieldCells elfields mesh (m, i)
        = (m ++ zipVals elfields i (interfaceFaceKeys mesh),
           i + (interfaceFaceKeys mesh).length) := by
  intro mesh
  induction mesh with
  | nil => intro m i _ _; simp [setFieldCells, interfaceFaceKeys, interfaceFaces, zipVals]
  | cons cell rest ih =>
    intro m i hfresh hnd
    have hsplit : interfaceFaces (cell :: rest)
        = facesKeysFrom cell.index 0 cell.faces ++ interfaceFaces rest := by
      simp [interfaceFaces]
    have hkeys : interfaceFaceKeys (cell :: rest)
        = (facesKeysFrom cell.index 0 cell.faces).map Prod.fst
            ++ interfaceFaceKeys rest := by
      simp [interfaceFaceKeys, hsplit]
    rw [hkeys] at hnd
    obtain ⟨hnd1, hnd2, hdisj⟩ := List.nodup_append.mp hnd
    have hstep : setFieldCells elfields (cell :: rest) (m, i)
        = setFieldCells elfields rest (setFieldFaces elfields cell.index 0 cell.faces (m, i)) :=
      rfl
    rw [hstep, setFieldFaces_eq elfields cell.index cell.faces 0 m i
      (fun kc hkc => hfresh kc (by rw [hsplit]; exact List.mem_append_left _ hkc)) hnd1]
    have hfresh2 : ∀ kc ∈ interfaceFaces rest,
        List.lookup kc.1 (m ++ zipVals elfields i
          ((facesKeysFrom cell.index 0 cell.faces).map Prod.fst)) = none := by
      intro kc hkc
      have h1 : List.lookup kc.1 m = none :=
        hfresh kc (by rw [hsplit]; exact List.mem_append_right _ hkc)
      have h2 : kc.1 ∉ (facesKeysFrom cell.index 0 cell.faces).map Prod.fst := by
        intro hmem
        exact hdisj hmem (by
          simp only [interfaceFaceKeys]
          exact List.mem_map_of_mem Prod.fst hkc)
      rw [lookup_append_of_none _ _ _ h1]
      exact lookup_zipVals_of_not_mem elfields kc.1 _ i h2
    rw [ih _ _ hfresh2 hnd2, hkeys]
    rw [zipVals_append, List.append_assoc, List.length_append, List.length_map,
      Nat.add_assoc]

/-! ## get_surface_nodes enumerates the same faces in the same order -/

theorem surfaceNodesFaces_eq (cellIdx : ℕ) :
    ∀ (faces : List Face) (f : ℕ),
      surfaceNodesFaces faces = (facesKeysFrom cellIdx f faces).map Prod.snd := by
  intro faces
  induction faces with
  | nil => intro f; rfl
  | cons face rest ih =>
    intro f
    by_cases hbid : face.bid = copper_surface
    · simp only [surfaceNodesFaces, facesKeysFrom, if_pos hbid, List.map_cons]
      rw [ih (f + 1)]
    · simp only [surfaceNodesFaces, facesKeysFrom, if_neg hbid]
      exact ih (f + 1)

theorem surface_nodes_eq_map_snd : ∀ (mesh : List Cell),
    mesh.flatMap (fun cell => surfaceNodesFaces cell.faces)
      = (interfaceFaces mesh).map Prod.snd := by
  intro mesh
  induction mesh with
  | nil => rfl
  | cons cell rest ih =>
    simp only [interfaceFaces, List.flatMap_cons, List.map_append] at *
    rw [surfaceNodesFaces_eq cell.index cell.faces 0, ih]

/-! ## C7 -/

/-- C7: with distinct face keys and one value per interface face,
set_electric_field_bc(vector) builds exactly the map pairing the t-th
interface face (in the traversal order get_surface_nodes enumerates, as
the first conjunct states) with the t-th supplied value, and a subsequent
get_efield_bc on the t-th interface face returns the t-th value. -/
theorem C7_ordered_values_roundtrip (st : FchState) (elfields : List ℚ)
    (hnd : (interfaceFaceKeys st.mesh).Nodup)
    (hlen : elfields.length = (interfaceFaceKeys st.mesh).length) :
    get_surface_nodes st = (interfaceFaces st.mesh).map Prod.snd ∧
    (set_electric_field_bc_vector st elfields).interface_map_field
      = zipVals elfields 0 (interfaceFaceKeys st.mesh) ∧
    (∀ t, t < (interfaceFaceKeys st.mesh).length →
      get_efield_bc (set_electric_field_bc_vector st elfields)
        ((interfaceFaceKeys st.mesh).getD t (0, 0)) = elfields.getD t 0) := by
  have hmap : (set_electric_field_bc_vector st elfields).interface_map_field
      = zipVals elfields 0 (interfaceFaceKeys st.mesh) := by
    show (setFieldCells elfields st.mesh ([], 0)).1 = _
    rw [setFieldCells_eq elfields st.mesh [] 0 (fun kc _ => rfl) hnd]
    rw [List.nil_append]
  refine ⟨surface_nodes_eq_map_snd st.mesh, hmap, ?_⟩
  intro t ht
  have hne : zipVals elfields 0 (interfaceFaceKeys st.mesh) ≠ [] := by
    intro hnil
    have := zipVals_length elfields (interfaceFaceKeys st.mesh) 0
    rw [hnil] at this
    simp at this
    omega
  show (if (set_electric_field_bc_vector st elfields).interface_map_field = [] then _ else _) = _
  rw [hmap, if_neg hne, mapFind]
  rw [lookup_zipVals_getD elfields (interfaceFaceKeys st.mesh) 0 t hnd ht]
  rw [Option.getD_some, Nat.zero_add]

/-- Witness for C7 at the concrete two-interface-face sample mesh. -/
theorem C7_witness :
    (interfaceFaceKeys baseState.mesh).Nodup ∧
    [(4 : ℚ), 6].length = (interfaceFaceKeys baseState.mesh).length ∧
    get_efield_bc (set_electric_field_bc_vector baseState [4, 6])
      ((interfaceFaceKeys baseState.mesh).getD 1 (0, 0)) = 6 := by
  refine ⟨by decide, by decide, ?_⟩
  exact (C7_ordered_values_roundtrip baseState [4, 6] (by decide) (by decide)).2.2 1 (by decide)

/-! ## The centroid matching builds the first-match map -/

theorem find?_first (p : ℚ × ℚ → Bool) :
    ∀ (l : List (ℚ × ℚ)) (i : ℕ), i < l.length →
      p (l.getD i (0, 0)) = true →
      (∀ i2, i2 < i → ¬ p (l.getD i2 (0, 0)) = true) →
      l.find? p = some (l.getD i (0, 0)) := by
  intro l
  induction l with
  | nil => intro i hi _ _; simp at hi
  | cons a t ih =>
    intro i hi hp hfirst
    cases i with
    | zero =>
      rw [List.getD_cons_zero] at hp ⊢
      rw [List.find?_cons, hp]
    | succ i =>
      have ha : p a = false := by
        have h0 := hfirst 0 (Nat.succ_pos i)
        rw [List.getD_cons_zero] at h0
        exact Bool.not_eq_true _ ▸ (by simpa using h0)
      rw [List.getD_cons_succ] at hp ⊢
      rw [List.find?_cons, ha]
      exact ih i (by simpa using hi) hp
        (fun i2 h2 => by
          have := hfirst (i2 + 1) (by omega)
          rwa [List.getD_cons_succ] at this)

theorem find?_none_of_all (p : ℚ × ℚ → Bool) (l : List (ℚ × ℚ))
    (h : ∀ i, i < l.length → ¬ p (l.getD i (0, 0)) = true) :
    l.find? p = none := by
  apply List.find?_eq_none.mpr
  intro x hx
  obtain ⟨i, hi, rfl⟩ := List.mem_iff_getElem.mp hx
  have h2 := h i hi
  rwa [List.getD_eq_getElem _ _ hi] at h2

theorem lookup_matchedOf_of_not_mem (vac : List (ℚ × ℚ)) (eps : ℚ) :
    ∀ (kcs : List ((ℕ × ℕ) × ℚ)) (k : ℕ × ℕ), k ∉ kcs.map Prod.fst →
      List.lookup k (matchedOf vac eps kcs) = none := by
  intro kcs
  induction kcs with
  | nil => intro k _; rfl
  | cons kc rest ih =>
    intro k hk
    rw [List.map_cons] at hk
    have hne : k ≠ kc.1 := fun he => hk (he ▸ List.mem_cons_self _ _)
    have hrest : k ∉ rest.map Prod.fst := fun hm => hk (List.mem_cons_of_mem _ hm)
    simp only [matchedOf, List.filterMap_cons]
    cases hfind : vac.find? (fun cv => decide (|kc.2 - cv.1| < eps)) with
    | none =>
      exact ih k hrest
    | some cv =>
      show List.lookup k ((kc.1, cv.2) :: matchedOf vac eps rest) = none
      rw [List.lookup_cons, beq_eq_false_iff_ne.mpr hne]
      exact ih k hrest

theorem lookup_matchedOf_getD (vac : List (ℚ × ℚ)) (eps : ℚ) :
    ∀ (kcs : List ((ℕ × ℕ) × ℚ)) (t : ℕ), ((kcs.map Prod.fst).Nodup) → t < kcs.length →
      List.lookup (kcs.getD t ((0, 0), 0)).1 (matchedOf vac eps kcs)
        = (vac.find? (fun cv =>
            decide (|(kcs.getD t ((0, 0), 0)).2 - cv.1| < eps))).map (fun cv => cv.2) := by
  intro kcs
  induction kcs with
  | nil => intro t _ ht; simp at ht
  | cons kc rest ih =>
    intro t hnd ht
    rw [List.map_cons] at hnd
    obtain ⟨hk1, hndr⟩ := List.nodup_cons.mp hnd
    cases t with
    | zero =>
      rw [List.getD_cons_zero]
      simp only [matchedOf, List.filterMap_cons]
      cases hfind : vac.find? (fun cv => decide (|kc.2 - cv.1| < eps)) with
      | none =>
        exact lookup_matchedOf_of_not_mem vac eps rest kc.1 hk1
      | some cv =>
        show List.lookup kc.1 ((kc.1, cv.2) :: matchedOf vac eps rest) = some cv.2
        rw [List.lookup_cons, beq_self_eq_true]
    | succ t =>
      have htr : t < rest.length := by simpa using ht
      have hmem : rest.getD t ((0, 0), 0) ∈ rest := by
        rw [List.getD_eq_getElem _ _ htr]
        exact List.getElem_mem htr
      have hne : (rest.getD t ((0, 0), 0)).1 ≠ kc.1 := by
        intro he
        exact hk1 (List.mem_map.mpr ⟨rest.getD t ((0, 0), 0), hmem, he⟩)
      rw [List.getD_cons_succ]
      simp only [matchedOf, List.filterMap_cons]
      cases hfind : vac.find? (fun cv => decide (|kc.2 - cv.1| < eps)) with
      | none =>
        exact ih t hndr htr
      | some cv =>
        show List.lookup (rest.getD t ((0, 0), 0)).1
          ((kc.1, cv.2) :: matchedOf vac eps rest) = _
        rw [List.lookup_cons, beq_eq_false_iff_ne.mpr hne]
        exact ih t hndr htr

theorem mem_unmatchedOf_getD (vac : List (ℚ × ℚ)) (eps : ℚ)
    (kcs : List ((ℕ × ℕ) × ℚ)) (t : ℕ) (ht : t < kcs.length)
    (hnone : vac.find? (fun cv =>
      decide (|(kcs.getD t ((0, 0), 0)).2 - cv.1| < eps)) = none) :
    (kcs.getD t ((0, 0), 0)).1 ∈ unmatchedOf vac eps kcs := by
  apply List.mem_filterMap.mpr
  refine ⟨kcs.getD t ((0, 0), 0), ?_, ?_⟩
  · rw [List.getD_eq_getElem _ _ ht]
    exact List.getElem_mem ht
  · rw [hnone]

theorem matchFieldFaces_eq (vac : List (ℚ × ℚ)) (eps : ℚ) (cellIdx : ℕ) :
    ∀ (faces : List Face) (f : ℕ) (m : AssocMap) (d : List (ℕ × ℕ)),
      (∀ kc ∈ facesKeysFrom cellIdx f faces, List.lookup kc.1 m = none) →
      (((facesKeysFrom cellIdx f faces).map Prod.fst).Nodup) →
      matchFieldFaces vac eps cellIdx f faces (m, d)
        = (m ++ matchedOf vac eps (facesKeysFrom cellIdx f faces),
           d ++ unmatchedOf vac eps (facesKeysFrom cellIdx f faces)) := by
  intro faces
  induction faces with
  | nil => intro f m d _ _; simp [matchFieldFaces, facesKeysFrom, matchedOf, unmatchedOf]
  | cons face rest ih =>
    intro f m d hfresh hnd
    by_cases hbid : face.bid = copper_surface
    · have hkeys : facesKeysFrom cellIdx f (face :: rest)
          = ((cellIdx, f), face.center) :: facesKeysFrom cellIdx (f + 1) rest := by
        simp [facesKeysFrom, if_pos hbid]
      rw [hkeys] at hfresh hnd
      rw [List.map_cons] at hnd
      obtain ⟨hk1, hndr⟩ := List.nodup_cons.mp hnd
      have hkey : List.lookup (cellIdx, f) m = none :=
        hfresh ((cellIdx, f), face.center) (List.mem_cons_self _ _)
      rw [hkeys]
      cases hfind : vac.find? (fun cv => decide (|face.center - cv.1| < eps)) with
      | some cv =>
        have hstep : matchFieldFaces vac eps cellIdx f (face :: rest) (m, d)
            = matchFieldFaces vac eps cellIdx (f + 1) rest
                (m ++ [((cellIdx, f), cv.2)], d) := by
          simp only [matchFieldFaces, if_pos hbid, hfind]
          rw [mapInsert_of_none m _ _ hkey]
          have hcnt : mapCount (m ++ [((cellIdx, f), cv.2)]) (cellIdx, f) ≠ 0 := by
            rw [Ne, mapCount_eq_zero_iff]
            rw [lookup_append_of_none _ _ _ hkey, List.lookup_cons, beq_self_eq_true]
            intro hco
            exact Option.noConfusion hco
          rw [if_neg hcnt]
        rw [hstep]
        have hfresh2 : ∀ kc ∈ facesKeysFrom cellIdx (f + 1) rest,
            List.lookup kc.1 (m ++ [((cellIdx, f), cv.2)]) = none := by
          intro kc hkc
          have h1 : List.lookup kc.1 m = none := hfresh kc (List.mem_cons_of_mem _ hkc)
          have h2 : kc.1 ≠ (cellIdx, f) := by
            intro he
            exact hk1 (List.mem_map.mpr ⟨kc, hkc, he⟩)
          rw [lookup_append_of_none _ _ _ h1]
          exact lookup_singleton_of_ne _ _ _ h2
        rw [ih (f + 1) (m ++ [((cellIdx, f), cv.2)]) d hfresh2 hndr]
        have hm : matchedOf vac eps (((cellIdx, f), face.center)
            :: facesKeysFrom cellIdx (f + 1) rest)
            = ((cellIdx, f), cv.2) :: matchedOf vac eps (facesKeysFrom cellIdx (f + 1) rest) := by
          simp [matchedOf, List.filterMap_cons, hfind]
        have hu : unmatchedOf vac eps (((cellIdx, f), face.center)
            :: facesKeysFrom cellIdx (f + 1) rest)
            = unmatchedOf vac eps (facesKeysFrom cellIdx (f + 1) rest) := by
          simp [unmatchedOf, List.filterMap_cons, hfind]
        rw [hm, hu, List.append_assoc, List.singleton_append]
      | none =>
        have hstep : matchFieldFaces vac eps cellIdx f (face :: rest) (m, d)
            = matchFieldFaces vac eps cellIdx (f + 1) rest
                (m, d ++ [(cellIdx, f)]) := by
          simp only [matchFieldFaces, if_pos hbid, hfind]
          rw [if_pos ((mapCount_eq_zero_iff m (cellIdx, f)).mpr hkey)]
        rw [hstep]
        have hfresh2 : ∀ kc ∈ facesKeysFrom cellIdx (f + 1) rest,
            List.lookup kc.1 m = none :=
          fun kc hkc => hfresh kc (List.mem_cons_of_mem _ hkc)
        rw [ih (f + 1) m (d ++ [(cellIdx, f)]) hfresh2 hndr]
        have hm : matchedOf vac eps (((cellIdx, f), face.center)
            :: facesKeysFrom cellIdx (f + 1) rest)
            = matchedOf vac eps (facesKeysFrom cellIdx (f + 1) rest) := by
          simp [matchedOf, List.filterMap_cons, hfind]
        have hu : unmatchedOf vac eps (((cellIdx, f), face.center)
            :: facesKeysFrom cellIdx (f + 1) rest)
            = (cellIdx, f) :: unmatchedOf vac eps (facesKeysFrom cellIdx (f + 1) rest) := by
          simp [unmatchedOf, List.filterMap_cons, hfind]
        rw [hm, hu, List.append_assoc, List.singleton_append]
    · have hkeys : facesKeysFrom cellIdx f (face :: rest)
          = facesKeysFrom cellIdx (f + 1) rest := by
        simp [facesKeysFrom, if_neg hbid]
      rw [hkeys] at hfresh hnd
      have hstep : matchFieldFaces vac eps cellIdx f (face :: rest) (m, d)
          = matchFieldFaces vac eps cellIdx (f + 1) rest (m, d) := by
        simp [matchFieldFaces, if_neg hbid]
      rw [hstep, hkeys]
      exact ih (f + 1) m d hfresh hnd

theorem matchedOf_append (vac : List (ℚ × ℚ)) (eps : ℚ)
    (l1 l2 : List ((ℕ × ℕ) × ℚ)) :
    matchedOf vac eps (l1 ++ l2) = matchedOf vac eps l1 ++ matchedOf vac eps l2 :=
  List.filterMap_append l1 l2 _

theorem unmatchedOf_append (vac : List (ℚ × ℚ)) (eps : ℚ)
    (l1 l2 : List ((ℕ × ℕ) × ℚ)) :
    unmatchedOf vac eps (l1 ++ l2) = unmatchedOf vac eps l1 ++ unmatchedOf vac eps l2 :=
  List.filterMap_append l1 l2 _

theorem matchFieldCells_eq (vac : List (ℚ × ℚ)) (eps : ℚ) :
    ∀ (mesh : List Cell) (m : AssocMap) (d : List (ℕ × ℕ)),
      (∀ kc ∈ interfaceFaces mesh, List.lookup kc.1 m = none) →
      (interfaceFaceKeys mesh).Nodup →
      matchFieldCells vac eps mesh (m, d)
        = (m ++ matchedOf vac eps (interfaceFaces mesh),
           d ++ unmatchedOf vac eps (interfaceFaces mesh)) := by
  intro mesh
  induction mesh with
  | nil => intro m d _ _; simp [matchFieldCells, interfaceFaces, matchedOf, unmatchedOf]
  | cons cell rest ih =>
    intro m d hfresh hnd
    have hsplit : interfaceFaces (cell :: rest)
        = facesKeysFrom cell.index 0 cell.faces ++ interfaceFaces rest := by
      simp [interfaceFaces]
    have hkeys : interfaceFaceKeys (cell :: rest)
        = (facesKeysFrom cell.index 0 cell.faces).map Prod.fst
            ++ interfaceFaceKeys rest := by
      simp [interfaceFaceKeys, hsplit]
    rw [hkeys] at hnd
    obtain ⟨hnd1, hnd2, hdisj⟩ := List.nodup_append.mp hnd
    have hstep : matchFieldCells vac eps (cell :: rest) (m, d)
        = matchFieldCells vac eps rest
            (matchFieldFaces vac eps cell.index 0 cell.faces (m, d)) := rfl
    rw [hstep, matchFieldFaces_eq vac eps cell.index cell.faces 0 m d
      (fun kc hkc => hfresh kc (by rw [hsplit]; exact List.mem_append_left _ hkc)) hnd1]
    have hfresh2 : ∀ kc ∈ interfaceFaces rest,
        List.lookup kc.1
          (m ++ matchedOf vac eps (facesKeysFrom cell.index 0 cell.faces)) = none := by
      intro kc hkc
      have h1 : List.lookup kc.1 m = none :=
        hfresh kc (by rw [hsplit]; exact List.mem_append_right _ hkc)
      have h2 : kc.1 ∉ (facesKeysFrom cell.index 0 cell.faces).map Prod.fst := by
        intro hmem
        exact hdisj hmem (by
          simp only [interfaceFaceKeys]
          exact List.mem_map_of_mem Prod.fst hkc)
      rw [lookup_append_of_none _ _ _ h1]
      exact lookup_matchedOf_of_not_mem vac eps _ kc.1 h2
    rw [ih _ _ hfresh2 hnd2, hsplit]
    rw [matchedOf_append, unmatchedOf_append, List.append_assoc, List.append_assoc]

/-! ## C8 -/

/-- C8: when building the field map from the external electrostatics
solution, every interface face whose center has some supplied vacuum
centroid within the eps = 1e-9 tolerance is mapped to the value of the
first such centroid in centroid order, and every face with no centroid
within tolerance is reported in the diagnostics, left absent from the
map, while the map is still built with the matched subset — the mismatch
is not fatal. -/
theorem C8_laplace_centroid_matching (st : FchState) (lap : Laplace)
    (hnd : (interfaceFaceKeys st.mesh).Nodup) (t : ℕ)
    (ht : t < (interfaceFaces st.mesh).length) :
    (∀ i, i < (vacuumInterfaceData lap).length →
      |((interfaceFaces st.mesh).getD t ((0, 0), 0)).2
          - ((vacuumInterfaceData lap).getD i (0, 0)).1| < 1 / 10 ^ 9 →
      (∀ i2, i2 < i →
        ¬ (|((interfaceFaces st.mesh).getD t ((0, 0), 0)).2
            - ((vacuumInterfaceData lap).getD i2 (0, 0)).1| < 1 / 10 ^ 9)) →
      List.lookup ((interfaceFaces st.mesh).getD t ((0, 0), 0)).1
          (set_electric_field_bc_laplace st lap).1.interface_map_field
        = some ((vacuumInterfaceData lap).getD i (0, 0)).2) ∧
    ((∀ i, i < (vacuumInterfaceData lap).length →
      ¬ (|((interfaceFaces st.mesh).getD t ((0, 0), 0)).2
          - ((vacuumInterfaceData lap).getD i (0, 0)).1| < 1 / 10 ^ 9)) →
      List.lookup ((interfaceFaces st.mesh).getD t ((0, 0), 0)).1
          (set_electric_field_bc_laplace st lap).1.interface_map_field = none ∧
      ((interfaceFaces st.mesh).getD t ((0, 0), 0)).1
        ∈ (set_electric_field_bc_laplace st lap).2) := by
  have hmap : (set_electric_field_bc_laplace st lap).1.interface_map_field
      = matchedOf (vacuumInterfaceData lap) (1 / 10 ^ 9) (interfaceFaces st.mesh) := by
    show (matchFieldCells (vacuumInterfaceData lap) (1 / 10 ^ 9) st.mesh ([], [])).1 = _
    rw [matchFieldCells_eq _ _ st.mesh [] [] (fun kc _ => rfl) hnd]
    simp
  have hdiag : (set_electric_field_bc_laplace st lap).2
      = unmatchedOf (vacuumInterfaceData lap) (1 / 10 ^ 9) (interfaceFaces st.mesh) := by
    show (matchFieldCells (vacuumInterfaceData lap) (1 / 10 ^ 9) st.mesh ([], [])).2 = _
    rw [matchFieldCells_eq _ _ st.mesh [] [] (fun kc _ => rfl) hnd]
    simp
  refine ⟨?_, ?_⟩
  · intro i hi hclose hfirst
    rw [hmap, lookup_matchedOf_getD _ _ _ t hnd ht]
    rw [find?_first _ (vacuumInterfaceData lap) i hi (decide_eq_true hclose)
      (fun i2 h2 => by
        simp only [decide_eq_true_eq]
        exact hfirst i2 h2)]
    rfl
  · intro hall
    have hfind : (vacuumInterfaceData lap).find? (fun cv =>
        decide (|((interfaceFaces st.mesh).getD t ((0, 0), 0)).2 - cv.1| < 1 / 10 ^ 9))
          = none :=
      find?_none_of_all _ _ (fun i hi => by
        simp only [decide_eq_true_eq]
        exact hall i hi)
    constructor
    · rw [hmap, lookup_matchedOf_getD _ _ _ t hnd ht, hfind]
      rfl
    · rw [hdiag]
      exact mem_unmatchedOf_getD _ _ _ t ht hfind

/-- Witness for C8 at the concrete sample meshes: the face at center 0 is
matched to the second vacuum centroid (the first within tolerance, value
9), and the face at center 1 matches nothing and is reported. -/
theorem C8_witness :
    (interfaceFaceKeys baseState.mesh).Nodup ∧
    List.lookup (0, 0) (set_electric_field_bc_laplace baseState lapW).1.interface_map_field
      = some 9 ∧
    (1, 0) ∈ (set_electric_field_bc_laplace baseState lapW).2 := by
  refine ⟨by decide, ?_, ?_⟩
  · exact (C8_laplace_centroid_matching baseState lapW (by decide) 0 (by decide)).1 1
      (by decide)
      (show |(0 : ℚ) - 0| < 1 / 10 ^ 9 by norm_num)
      (fun i2 h2 => by
        have h0 : i2 = 0 := by omega
        subst h0
        show ¬ |(0 : ℚ) - 10| < 1 / 10 ^ 9
        norm_num)
  · refine ((C8_laplace_centroid_matching baseState lapW (by decide) 1 (by decide)).2
      (fun i hi => ?_)).2
    have h2 : i < 2 := hi
    rcases (show i = 0 ∨ i = 1 by omega) with rfl | rfl
    · show ¬ |(1 : ℚ) - 10| < 1 / 10 ^ 9
      norm_num
    · show ¬ |(1 : ℚ) - 0| < 1 / 10 ^ 9
      norm_num

end Fch
